import Mathlib

/-!
Verification development for the LSRA repository (stack-to-IR importer,
tree IR, and linear-scan register allocator).

The Python sources (src/ir.py, src/stack_instruction.py, src/lsra.py) are
shallowly embedded below.  Mutable object graphs are represented as
explicit state: blocks are identified by their unique il_idx, statements
by arena ids, trees (after reindex) by their unique ir_idx, and intervals
by what they are an interval of (a local index or the producing tree's
ir_idx).  Fallible operations return Except String.
-/

namespace LSRA

/-- Operator enumeration from src/ir.py. -/
inductive Operator where
  | add | sub | mul | div | eq
deriving DecidableEq, Repr

/-- TreeKind enumeration from src/ir.py. -/
inductive TreeKind where
  | ldLocal | stLocal | const | discard | binOp | ret | branch | jmp
deriving DecidableEq, Repr

/-- Operands carried by trees.  Python stores plain ints (local ids,
literals, the register appended by the StLocal case of do_linear_scan),
Operator values, BasicBlock references (the importer's Jmp and Branch
cases store the target block itself) and BlockEdge values (the
synthesized Jmp created when a block is split).  Blocks are identified
by their il_idx. -/
inductive Operand where
  | num (n : Int)
  | op (o : Operator)
  | blockRef (il : Nat)
  | edge (target : Nat)
deriving DecidableEq, Repr

mutual
/-- Expression tree from src/ir.py (class Tree).  The parent and
owning-block back references are recovered structurally (a subtree's
parent is the node holding it; the owning block is the block whose
statement contains the root). -/
inductive Tree where
  | node (kind : TreeKind) (operands : List Operand) (subtrees : TreeList)
deriving Repr

/-- The ordered list of subtrees of a tree. -/
inductive TreeList where
  | nil
  | cons (t : Tree) (ts : TreeList)
deriving Repr
end

mutual
/-- Number of nodes of a tree. -/
def Tree.size : Tree → Nat
  | .node _ _ ts => TreeList.size ts + 1

/-- Total number of nodes of a list of trees. -/
def TreeList.size : TreeList → Nat
  | .nil => 0
  | .cons t ts => Tree.size t + TreeList.size ts
end

/-- Conversion from a Lean list of trees (the importer's evaluation
stack) to a TreeList. -/
def TreeList.ofList : List Tree → TreeList
  | [] => .nil
  | t :: ts => .cons t (TreeList.ofList ts)

mutual
/-- Tree annotated with the ir_idx values assigned by Ir.reindex. -/
inductive ATree where
  | node (kind : TreeKind) (operands : List Operand) (subtrees : ATreeList) (idx : Nat)
deriving Repr

/-- List of annotated trees. -/
inductive ATreeList where
  | nil
  | cons (t : ATree) (ts : ATreeList)
deriving Repr
end

/-- The ir_idx of the root of an annotated tree. -/
def ATree.idx : ATree → Nat
  | .node _ _ _ i => i

mutual
/-- Embedding of Ir.reindex restricted to one tree: Ir.reindex walks
tree_execution_order (subtrees first, then the node) assigning
consecutive indices starting from the given counter; it returns the
annotated tree and the next counter value. -/
def reindexTree : Tree → Nat → ATree × Nat
  | .node k ops ts, n =>
    let r := reindexTreeList ts n
    (.node k ops r.1 r.2, r.2 + 1)

/-- Reindexing of a list of trees, threading the counter. -/
def reindexTreeList : TreeList → Nat → ATreeList × Nat
  | .nil, n => (.nil, n)
  | .cons t ts, n =>
    let r := reindexTree t n
    let rs := reindexTreeList ts r.2
    (.cons r.1 rs.1, rs.2)
end

/-- Reindexing of the statement roots of one block. -/
def reindexRoots : List Tree → Nat → List ATree × Nat
  | [], n => ([], n)
  | t :: ts, n =>
    let r := reindexTree t n
    let rs := reindexRoots ts r.2
    (r.1 :: rs.1, rs.2)

/-- Embedding of Ir.reindex on the whole function: blocks in block
execution order, each block contributing its statement roots in order.
Returns the annotated blocks and ir_idx_count. -/
def reindexBlocks : List (List Tree) → Nat → List (List ATree) × Nat
  | [], n => ([], n)
  | b :: bs, n =>
    let r := reindexRoots b n
    let rs := reindexBlocks bs r.2
    (r.1 :: rs.1, rs.2)

mutual
/-- All ir_idx values of an annotated tree, in tree_execution_order. -/
def ATree.idxs : ATree → List Nat
  | .node _ _ ts i => ATreeList.idxs ts ++ [i]

/-- All ir_idx values of an annotated tree list, in execution order. -/
def ATreeList.idxs : ATreeList → List Nat
  | .nil => []
  | .cons t ts => ATree.idxs t ++ ATreeList.idxs ts
end

/-- All ir_idx values of a list of annotated statement roots. -/
def rootsIdxs : List ATree → List Nat
  | [] => []
  | t :: ts => ATree.idxs t ++ rootsIdxs ts

/-- All ir_idx values of annotated blocks, in execution order. -/
def blocksIdxs : List (List ATree) → List Nat
  | [] => []
  | b :: bs => rootsIdxs b ++ blocksIdxs bs

mutual
/-- Check that inside a tree every node's ir_idx is strictly greater
than every ir_idx occurring in its subtrees. -/
def ATree.parentDominates : ATree → Bool
  | .node _ _ ts i =>
    (ATreeList.idxs ts).all (fun j => j < i) && ATreeList.parentDominates ts

/-- Pointwise version of ATree.parentDominates on a subtree list. -/
def ATreeList.parentDominates : ATreeList → Bool
  | .nil => true
  | .cons t ts => ATree.parentDominates t && ATreeList.parentDominates ts
end

/-- Check parent dominance for every rooted tree of every block. -/
def blocksParentDominate (bs : List (List ATree)) : Bool :=
  bs.all (fun b => b.all ATree.parentDominates)

mutual
theorem reindexTree_snd : ∀ (t : Tree) (n : Nat), (reindexTree t n).2 = n + t.size
  | .node _ _ ts, n => by
    have h := reindexTreeList_snd ts n
    simp only [reindexTree, Tree.size]
    rw [h]
    omega

theorem reindexTreeList_snd : ∀ (ts : TreeList) (n : Nat),
    (reindexTreeList ts n).2 = n + ts.size
  | .nil, n => by simp [reindexTreeList, TreeList.size]
  | .cons t ts, n => by
    have h1 := reindexTree_snd t n
    have h2 := reindexTreeList_snd ts (reindexTree t n).2
    simp only [reindexTreeList, TreeList.size]
    rw [h2, h1]
    omega
end

mutual
theorem reindexTree_idxs : ∀ (t : Tree) (n : Nat),
    ((reindexTree t n).1).idxs = List.range' n t.size
  | .node _ _ ts, n => by
    have h1 := reindexTreeList_idxs ts n
    have h2 := reindexTreeList_snd ts n
    simp only [reindexTree, ATree.idxs, Tree.size]
    rw [h1, h2, List.range'_1_concat]

theorem reindexTreeList_idxs : ∀ (ts : TreeList) (n : Nat),
    ((reindexTreeList ts n).1).idxs = List.range' n ts.size
  | .nil, n => by simp [reindexTreeList, ATreeList.idxs, TreeList.size, List.range']
  | .cons t ts, n => by
    have h1 := reindexTree_idxs t n
    have h2 := reindexTree_snd t n
    have h3 := reindexTreeList_idxs ts (reindexTree t n).2
    simp only [reindexTreeList, ATreeList.idxs, TreeList.size]
    rw [h1, h3, h2]
    have h4 := List.range'_append n t.size ts.size 1
    rw [Nat.one_mul] at h4
    rw [h4, Nat.add_comm ts.size t.size]
end

mutual
theorem reindexTree_dom : ∀ (t : Tree) (n : Nat),
    ((reindexTree t n).1).parentDominates = true
  | .node _ _ ts, n => by
    have h1 := reindexTreeList_idxs ts n
    have h2 := reindexTreeList_snd ts n
    have h3 := reindexTreeList_dom ts n
    simp [reindexTree, ATree.parentDominates, h3, List.all_eq_true]
    intro j hj
    rw [h1] at hj
    rw [List.mem_range'] at hj
    obtain ⟨i, hi, rfl⟩ := hj
    omega

theorem reindexTreeList_dom : ∀ (ts : TreeList) (n : Nat),
    ((reindexTreeList ts n).1).parentDominates = true
  | .nil, _ => by simp [reindexTreeList, ATreeList.parentDominates]
  | .cons t ts, n => by
    have h1 := reindexTree_dom t n
    have h2 := reindexTreeList_dom ts (reindexTree t n).2
    simp [reindexTreeList, ATreeList.parentDominates, h1, h2]
end

/-- Total node count of a list of statement roots. -/
def rootsSize (ts : List Tree) : Nat := (ts.map Tree.size).sum

/-- Total node count of the blocks of a function. -/
def blocksSize (bs : List (List Tree)) : Nat := (bs.map rootsSize).sum

theorem rootsSize_cons (t : Tree) (ts : List Tree) :
    rootsSize (t :: ts) = t.size + rootsSize ts := by simp [rootsSize]

theorem blocksSize_cons (b : List Tree) (bs : List (List Tree)) :
    blocksSize (b :: bs) = rootsSize b + blocksSize bs := by simp [blocksSize]

theorem reindexRoots_snd : ∀ (ts : List Tree) (n : Nat),
    (reindexRoots ts n).2 = n + rootsSize ts
  | [], n => by simp [reindexRoots, rootsSize]
  | t :: ts, n => by
    have h1 := reindexTree_snd t n
    have h2 := reindexRoots_snd ts (reindexTree t n).2
    simp only [reindexRoots, rootsSize_cons]
    rw [h2, h1]
    omega

theorem reindexRoots_idxs : ∀ (ts : List Tree) (n : Nat),
    rootsIdxs (reindexRoots ts n).1 = List.range' n (rootsSize ts)
  | [], n => by simp [reindexRoots, rootsIdxs, rootsSize, List.range']
  | t :: ts, n => by
    have h1 := reindexTree_idxs t n
    have h2 := reindexTree_snd t n
    have h3 := reindexRoots_idxs ts (reindexTree t n).2
    simp only [reindexRoots, rootsIdxs, rootsSize_cons]
    rw [h1, h3, h2]
    have h4 := List.range'_append n t.size (rootsSize ts) 1
    rw [Nat.one_mul] at h4
    rw [h4, Nat.add_comm (rootsSize ts) t.size]

theorem reindexBlocks_snd : ∀ (bs : List (List Tree)) (n : Nat),
    (reindexBlocks bs n).2 = n + blocksSize bs
  | [], n => by simp [reindexBlocks, blocksSize]
  | b :: bs, n => by
    have h1 := reindexRoots_snd b n
    have h2 := reindexBlocks_snd bs (reindexRoots b n).2
    simp only [reindexBlocks, blocksSize_cons]
    rw [h2, h1]
    omega

theorem reindexBlocks_idxs : ∀ (bs : List (List Tree)) (n : Nat),
    blocksIdxs (reindexBlocks bs n).1 = List.range' n (blocksSize bs)
  | [], n => by simp [reindexBlocks, blocksIdxs, blocksSize, List.range']
  | b :: bs, n => by
    have h1 := reindexRoots_idxs b n
    have h2 := reindexRoots_snd b n
    have h3 := reindexBlocks_idxs bs (reindexRoots b n).2
    simp only [reindexBlocks, blocksIdxs]
    rw [h1, h3, h2, blocksSize_cons]
    have h4 := List.range'_append n (rootsSize b) (blocksSize bs) 1
    rw [Nat.one_mul] at h4
    rw [h4, Nat.add_comm (blocksSize bs) (rootsSize b)]

theorem reindexRoots_dom : ∀ (ts : List Tree) (n : Nat),
    ∀ a ∈ (reindexRoots ts n).1, a.parentDominates = true
  | [], _ => by simp [reindexRoots]
  | t :: ts, n => by
    intro a ha
    simp [reindexRoots] at ha
    rcases ha with h | h
    · rw [h]; exact reindexTree_dom t n
    · exact reindexRoots_dom ts (reindexTree t n).2 a h

theorem reindexBlocks_dom : ∀ (bs : List (List Tree)) (n : Nat),
    blocksParentDominate (reindexBlocks bs n).1 = true
  | [], _ => by simp [reindexBlocks, blocksParentDominate]
  | b :: bs, n => by
    have h2 := reindexBlocks_dom bs (reindexRoots b n).2
    simp [reindexBlocks, blocksParentDominate, List.all_eq_true] at h2 ⊢
    constructor
    · exact fun a ha => reindexRoots_dom b n a ha
    · exact h2

/-- C9: After Ir.reindex, the ir_idx values over all trees of the Ir,
listed in execution order, are exactly the contiguous range
[0, ir_idx_count), assigned in post-order across block execution order,
and within every rooted tree a node's ir_idx strictly exceeds every
ir_idx occurring in its subtrees. -/
theorem C9_reindex_postorder_bijective (bs : List (List Tree)) :
    blocksIdxs (reindexBlocks bs 0).1 = List.range (reindexBlocks bs 0).2 ∧
    blocksParentDominate (reindexBlocks bs 0).1 = true := by
  constructor
  · rw [reindexBlocks_idxs, reindexBlocks_snd, List.range_eq_range', Nat.zero_add]
  · exact reindexBlocks_dom bs 0

/-! Arena model of the doubly linked block and statement lists of
src/ir.py.  Blocks are keyed by their unique il_idx; statements are
keyed by an arena id assigned at creation. -/

/-- Lookup in an association list keyed by Nat. -/
def lookupA {α : Type} (l : List (Nat × α)) (k : Nat) : Option α :=
  (l.find? (fun p => p.1 == k)).map (·.2)

/-- Replace the value stored under a key. -/
def updateA {α : Type} (l : List (Nat × α)) (k : Nat) (v : α) : List (Nat × α) :=
  l.map (fun p => if p.1 == k then (k, v) else p)

/-- Require an optional value, raising the given message otherwise. -/
def req {α : Type} (o : Option α) (msg : String) : Except String α :=
  match o with
  | some a => .ok a
  | none => .error msg

/-- BasicBlock from src/ir.py: linked-list fields hold the il_idx of the
neighbouring block, statement fields hold statement arena ids. -/
structure SBlock where
  il_idx : Nat
  next_block : Option Nat
  prev_block : Option Nat
  first_statement : Option Nat
  last_statement : Option Nat
deriving Repr, DecidableEq

/-- Statement from src/ir.py with arena ids for the statement links. -/
structure SStmt where
  il_idx : Nat
  next_statement : Option Nat
  prev_statement : Option Nat
  tree : Tree
deriving Repr

/-- BasicBlockList from src/ir.py: the arena of blocks and statements.
The first block always has il_idx 0. -/
structure BlockArena where
  blocks : List (Nat × SBlock)
  stmts : List (Nat × SStmt)
  nextStmtId : Nat
deriving Repr

/-- A fresh BasicBlockList: one empty block at il_idx 0. -/
def BlockArena.init : BlockArena :=
  { blocks := [(0, { il_idx := 0, next_block := none, prev_block := none,
                     first_statement := none, last_statement := none })],
    stmts := [], nextStmtId := 0 }

def getBlock (a : BlockArena) (il : Nat) : Except String SBlock :=
  req (lookupA a.blocks il) "dangling block reference"

def getStmt (a : BlockArena) (sid : Nat) : Except String SStmt :=
  req (lookupA a.stmts sid) "dangling statement reference"

def setBlock (a : BlockArena) (il : Nat) (b : SBlock) : BlockArena :=
  { a with blocks := updateA a.blocks il b }

def setStmt (a : BlockArena) (sid : Nat) (s : SStmt) : BlockArena :=
  { a with stmts := updateA a.stmts sid s }

/-- The block-walk loop of get_or_insert_block_at: advance while the
current block's il_idx is below the requested one and the successor
does not overshoot. -/
def walkBlocks (a : BlockArena) (il : Nat) : Nat → Nat → Except String Nat
  | 0, _ => .error "out of fuel walking block list"
  | fuel + 1, cur => do
    let b ← getBlock a cur
    if b.il_idx < il then
      match b.next_block with
      | none => .ok cur
      | some nxt => do
        let nb ← getBlock a nxt
        if nb.il_idx > il then .ok cur else walkBlocks a il fuel nxt
    else .ok cur

/-- The statement-walk loop of get_or_insert_block_at: returns none when
the requested il_idx lands past the block (insert an empty block), or
the statement id at which the walk stopped. -/
def walkStmts (a : BlockArena) (il : Nat) : Nat → Nat → Except String (Option Nat)
  | 0, _ => .error "out of fuel walking statement list"
  | fuel + 1, sid => do
    let s ← getStmt a sid
    if s.il_idx < il then
      match s.next_statement with
      | none => .ok none
      | some nxt => walkStmts a il fuel nxt
    else .ok (some sid)

/-- BasicBlockList.get_or_insert_block_at from src/ir.py, translated
line by line.  Returns the updated arena and the il_idx of the obtained
block. -/
def get_or_insert_block_at (a : BlockArena) (il_idx : Nat) :
    Except String (BlockArena × Nat) := do
  let bIl ← walkBlocks a il_idx (a.blocks.length + 1) 0
  let block ← getBlock a bIl
  if block.il_idx == il_idx then
    return (a, bIl)
  let s0 ← req block.first_statement
    "AttributeError: NoneType object has no attribute il_idx"
  match ← walkStmts a il_idx (a.stmts.length + 1) s0 with
  | none =>
    -- il_idx lands past the block: splice a new empty block in
    let newB : SBlock := { il_idx := il_idx, next_block := block.next_block,
                           prev_block := block.prev_block,
                           first_statement := none, last_statement := none }
    let a := { a with blocks := a.blocks ++ [(il_idx, newB)] }
    let a := setBlock a bIl { block with next_block := some il_idx }
    let a ← match newB.next_block with
      | some nxt => do
        let nb ← getBlock a nxt
        pure (setBlock a nxt { nb with prev_block := some il_idx })
      | none => pure a
    return (a, il_idx)
  | some sid => do
    let s ← getStmt a sid
    if s.il_idx > il_idx then
      .error "panic : il_idx lands between two statements"
    else do
      -- split the block at statement sid
      let newB : SBlock := { il_idx := il_idx, next_block := block.next_block,
                             prev_block := block.prev_block,
                             first_statement := none, last_statement := none }
      let a := { a with blocks := a.blocks ++ [(il_idx, newB)] }
      let a := setBlock a bIl { block with next_block := some il_idx }
      let a ← match newB.next_block with
        | some nxt => do
          let nb ← getBlock a nxt
          pure (setBlock a nxt { nb with prev_block := some il_idx })
        | none => pure a
      -- new_block inherits the statements from sid on
      let nb ← getBlock a il_idx
      let a := setBlock a il_idx
        { nb with first_statement := some sid, last_statement := block.last_statement }
      -- synthesize the unconditional Jmp statement
      let lastId ← req block.last_statement
        "AttributeError: NoneType object has no attribute prev_statement"
      let lastS ← getStmt a lastId
      let jmpId := a.nextStmtId
      let jmpTree : Tree := .node .jmp [.edge il_idx] .nil
      let jmp0 : SStmt := { il_idx := 0, next_statement := none,
                            prev_statement := lastS.prev_statement, tree := jmpTree }
      let a := { a with stmts := a.stmts ++ [(jmpId, jmp0)],
                        nextStmtId := jmpId + 1 }
      let a ← match jmp0.prev_statement with
        | some pid => do
          let ps ← getStmt a pid
          let a := setStmt a pid { ps with next_statement := some jmpId }
          let js ← getStmt a jmpId
          pure (setStmt a jmpId { js with il_idx := ps.il_idx })
        | none => do
          let js ← getStmt a jmpId
          pure (setStmt a jmpId { js with il_idx := block.il_idx })
      let cur ← getBlock a bIl
      let a := if block.last_statement == block.first_statement then
          setBlock a bIl { cur with first_statement := some jmpId }
        else a
      let cur2 ← getBlock a bIl
      let a := setBlock a bIl { cur2 with last_statement := some jmpId }
      -- new_block.first_statemenent.prev_statement = None
      let fs ← getStmt a sid
      let a := setStmt a sid { fs with prev_statement := none }
      return (a, il_idx)

/-- BasicBlock.append_tree from src/ir.py. -/
def append_tree (a : BlockArena) (bIl : Nat) (il_idx : Nat) (tree : Tree) :
    Except String BlockArena := do
  let block ← getBlock a bIl
  let sid := a.nextStmtId
  let newS : SStmt := { il_idx := il_idx, tree := tree,
                        next_statement := none,
                        prev_statement := block.last_statement }
  let a := { a with stmts := a.stmts ++ [(sid, newS)], nextStmtId := sid + 1 }
  match block.last_statement with
  | none =>
    pure (setBlock a bIl { block with first_statement := some sid,
                                      last_statement := some sid })
  | some lastId => do
    let lastS ← getStmt a lastId
    let a := setStmt a lastId { lastS with next_statement := some sid }
    pure (setBlock a bIl { block with last_statement := some sid })

/-! Embedding of src/stack_instruction.py. -/

/-- StackInstructionKind from src/stack_instruction.py. -/
inductive StackInstructionKind where
  | ldLocal | stLocal | push | pop | add | sub | mul | div | eq | jmp | branch | ret
deriving DecidableEq, Repr

/-- StackInstruction: a kind together with its integer operands. -/
structure StackInstruction where
  kind : StackInstructionKind
  operands : List Operand
deriving Repr

/-- StackFunction from src/stack_instruction.py. -/
structure StackFunction where
  local_vars : Nat
  instructions : List StackInstruction
deriving Repr

/-- The fold helper nested inside import_to_ir.  After checking the
stack depth it slices the top n trees and then calls
Tree(kind=kind, subtrees=res, operands=operands, parent=None) — but the
Tree dataclass of src/ir.py also has a required block field, which this
constructor call omits, so the call raises a TypeError before any tree
is built.  fold therefore never returns normally. -/
def foldTrees (stack : List Tree) (kind : TreeKind) (n : Nat)
    (operands : List Operand) : Except String (List Tree) :=
  if n > stack.length then .error "Not enough stack operands"
  else
    .error "TypeError: Tree.__init__() missing 1 required positional argument: block"

/-- Read a jump or branch target operand: Python reads ins.operands[i],
a plain non-negative instruction index. -/
def operandTarget (ops : List Operand) (i : Nat) : Except String Nat :=
  match ops.get? i with
  | some (.num n) => if n < 0 then .error "negative jump target" else .ok n.toNat
  | some _ => .error "jump target operand is not an integer"
  | none => .error "IndexError: list index out of range"

/-- The loop state of import_to_ir. -/
structure ImportState where
  arena : BlockArena
  current_block : Nat
  tree_stack : List Tree
  i_stmt_start : Nat
deriving Repr

/-- Flush the top of the tree stack into the current block as a new
statement with il_idx = i_stmt_start, then set i_stmt_start to the next
instruction index (shared tail of the StLocal, Pop, Jmp, Branch and Ret
cases of import_to_ir). -/
def flushTop (st : ImportState) (i_ins : Nat) : Except String ImportState := do
  let top ← req st.tree_stack.getLast? "IndexError: pop from empty list"
  let arena ← append_tree st.arena st.current_block st.i_stmt_start top
  pure { st with arena := arena, tree_stack := st.tree_stack.dropLast,
                 i_stmt_start := i_ins + 1 }

/-- After a StLocal, Pop, Jmp or Branch flush the tree stack must be
empty. -/
def checkLeftover (st : ImportState) : Except String ImportState :=
  if st.tree_stack.isEmpty then .ok st else .error "Leftover stack operands"

/-- Advance past a terminator: Python breaks out of the loop at the last
instruction, otherwise the current block becomes
get_or_insert_block_at(i_ins + 1). -/
def advanceAfterTerminator (st : ImportState) (i_ins last_i : Nat) :
    Except String ImportState :=
  if i_ins == last_i then .ok st
  else do
    let r ← get_or_insert_block_at st.arena (i_ins + 1)
    pure { st with arena := r.1, current_block := r.2 }

/-- One iteration of the match statement of import_to_ir. -/
def importStep (st : ImportState) (i_ins last_i : Nat) (ins : StackInstruction) :
    Except String ImportState := do
  match ins.kind with
  | .ldLocal => do
    let stack ← foldTrees st.tree_stack .ldLocal 0 ins.operands
    let st := { st with tree_stack := stack }
    if i_ins == last_i then .error "Illegal terminator" else pure st
  | .stLocal => do
    let stack ← foldTrees st.tree_stack .stLocal 1 ins.operands
    let st ← flushTop { st with tree_stack := stack } i_ins
    let st ← checkLeftover st
    if i_ins == last_i then .error "Illegal terminator" else pure st
  | .push => do
    let stack ← foldTrees st.tree_stack .const 0 ins.operands
    let st := { st with tree_stack := stack }
    if i_ins == last_i then .error "Illegal terminator" else pure st
  | .pop => do
    let stack ← foldTrees st.tree_stack .discard 1 []
    let st ← flushTop { st with tree_stack := stack } i_ins
    let st ← checkLeftover st
    if i_ins == last_i then .error "Illegal terminator" else pure st
  | .add => do
    let stack ← foldTrees st.tree_stack .binOp 2 [.op .add]
    let st := { st with tree_stack := stack }
    if i_ins == last_i then .error "Illegal terminator" else pure st
  | .sub => do
    let stack ← foldTrees st.tree_stack .binOp 2 [.op .sub]
    let st := { st with tree_stack := stack }
    if i_ins == last_i then .error "Illegal terminator" else pure st
  | .mul => do
    let stack ← foldTrees st.tree_stack .binOp 2 [.op .mul]
    let st := { st with tree_stack := stack }
    if i_ins == last_i then .error "Illegal terminator" else pure st
  | .div => do
    let stack ← foldTrees st.tree_stack .binOp 2 [.op .div]
    let st := { st with tree_stack := stack }
    if i_ins == last_i then .error "Illegal terminator" else pure st
  | .eq => do
    let stack ← foldTrees st.tree_stack .binOp 2 [.op .eq]
    let st := { st with tree_stack := stack }
    if i_ins == last_i then .error "Illegal terminator" else pure st
  | .jmp => do
    let t ← operandTarget ins.operands 0
    let r ← get_or_insert_block_at st.arena t
    let st := { st with arena := r.1 }
    -- fold stores the target block itself as the operand
    let stack ← foldTrees st.tree_stack .jmp 0 [.blockRef r.2]
    let st ← flushTop { st with tree_stack := stack } i_ins
    let st ← checkLeftover st
    advanceAfterTerminator st i_ins last_i
  | .branch => do
    let t1 ← operandTarget ins.operands 0
    let t2 ← operandTarget ins.operands 1
    let r1 ← get_or_insert_block_at st.arena t1
    let r2 ← get_or_insert_block_at r1.1 t2
    let st := { st with arena := r2.1 }
    -- fold stores the two target blocks themselves as the operands
    let stack ← foldTrees st.tree_stack .branch 1 [.blockRef r1.2, .blockRef r2.2]
    let st ← flushTop { st with tree_stack := stack } i_ins
    let st ← checkLeftover st
    advanceAfterTerminator st i_ins last_i
  | .ret => do
    let stack ← foldTrees st.tree_stack .ret 1 []
    let st ← flushTop { st with tree_stack := stack } i_ins
    -- note: no leftover-operand check in the Ret case of the source
    advanceAfterTerminator st i_ins last_i

/-- The main instruction loop of import_to_ir. -/
def importLoop (last_i : Nat) : Nat → List StackInstruction → ImportState →
    Except String ImportState
  | _, [], st => .ok st
  | i, ins :: rest, st => do
    let st ← importStep st i last_i ins
    importLoop last_i (i + 1) rest st

/-- One block of the structural Ir produced by the importer: the
statement list in forward order, each statement its il_idx and root
tree. -/
structure StructBlock where
  il_idx : Nat
  stmts : List (Nat × Tree)
deriving Repr

/-- The structural Ir: blocks in block execution order plus the number
of locals. -/
structure StructIr where
  blocks : List StructBlock
  local_vars : Nat
deriving Repr

/-- Walk a statement chain forward, collecting (il_idx, tree) pairs. -/
def collectStmts (a : BlockArena) : Nat → Option Nat →
    Except String (List (Nat × Tree))
  | _, none => .ok []
  | 0, some _ => .error "out of fuel collecting statements"
  | fuel + 1, some sid => do
    let s ← getStmt a sid
    let rest ← collectStmts a fuel s.next_statement
    pure ((s.il_idx, s.tree) :: rest)

/-- Walk the block chain forward, collecting structural blocks. -/
def collectBlocks (a : BlockArena) : Nat → Option Nat →
    Except String (List StructBlock)
  | _, none => .ok []
  | 0, some _ => .error "out of fuel collecting blocks"
  | fuel + 1, some il => do
    let b ← getBlock a il
    let stmts ← collectStmts a (a.stmts.length + 1) b.first_statement
    let rest ← collectBlocks a fuel b.next_block
    pure ({ il_idx := b.il_idx, stmts := stmts } :: rest)

/-- import_to_ir from src/stack_instruction.py: run the instruction
loop starting from a fresh block list, then read the block chain off as
a structural Ir (reindexing is performed by flattenIr below, mirroring
the result.reindex() call).  Because every instruction case calls fold,
which raises a TypeError (see foldTrees), only the empty instruction
list is accepted. -/
def import_to_ir (fn : StackFunction) : Except String StructIr := do
  let st0 : ImportState :=
    { arena := BlockArena.init, current_block := 0, tree_stack := [],
      i_stmt_start := 0 }
  let st ← importLoop (fn.instructions.length - 1) 0 fn.instructions st0
  let blocks ← collectBlocks st.arena (st.arena.blocks.length + 1) (some 0)
  pure { blocks := blocks, local_vars := fn.local_vars }

/-! Flat view of a reindexed Ir.  After Ir.reindex every tree has a
unique ir_idx, so the tree table is keyed by it; parent and owning
block become explicit fields, exactly the back references of the Python
Tree. -/

/-- One tree of the reindexed Ir. -/
structure FlatTree where
  kind : TreeKind
  operands : List Operand
  subtrees : List Nat
  parent : Option Nat
  ir_idx : Nat
  block_il : Nat
deriving Repr, DecidableEq

/-- One block of the reindexed Ir: statements as (il_idx, root ir_idx),
all tree ir_idx values in execution order, and the predecessor list. -/
structure FlatBlock where
  il_idx : Nat
  stmts : List (Nat × Nat)
  tree_idxs : List Nat
  predecessors : List Nat
deriving Repr, DecidableEq

/-- The reindexed Ir handed to the allocator. -/
structure FlatIr where
  blocks : List FlatBlock
  local_vars : Nat
  ir_idx_count : Nat
  trees : List FlatTree
deriving Repr, DecidableEq

/-- Root indices of an annotated subtree list. -/
def ATreeList.rootIdxs : ATreeList → List Nat
  | .nil => []
  | .cons t ts => t.idx :: ATreeList.rootIdxs ts

mutual
/-- Emit the flat trees of an annotated tree in execution order. -/
def emitATree (t : ATree) (parent : Option Nat) (bIl : Nat) : List FlatTree :=
  match t with
  | .node k ops ts i =>
    emitATreeList ts (some i) bIl ++
      [{ kind := k, operands := ops, subtrees := ATreeList.rootIdxs ts,
         parent := parent, ir_idx := i, block_il := bIl }]

/-- Emit the flat trees of an annotated subtree list. -/
def emitATreeList (ts : ATreeList) (parent : Option Nat) (bIl : Nat) :
    List FlatTree :=
  match ts with
  | .nil => []
  | .cons t rest => emitATree t parent bIl ++ emitATreeList rest parent bIl
end

/-- Emit the flat trees of a block's annotated statement roots. -/
def emitRoots (ts : List ATree) (bIl : Nat) : List FlatTree :=
  match ts with
  | [] => []
  | t :: rest => emitATree t none bIl ++ emitRoots rest bIl

/-- Ir.reindex as a flattening step: annotate every tree with its
post-order ir_idx and assemble the flat Ir used by the allocator. -/
def flattenIr (s : StructIr) : FlatIr :=
  let shapes := s.blocks.map (fun b => b.stmts.map (·.2))
  let r := reindexBlocks shapes 0
  let blocks := List.zipWith
    (fun (b : StructBlock) (ann : List ATree) =>
      { il_idx := b.il_idx,
        stmts := List.zipWith (fun (st : Nat × Tree) (t : ATree) => (st.1, t.idx))
          b.stmts ann,
        tree_idxs := rootsIdxs ann,
        predecessors := ([] : List Nat) : FlatBlock })
    s.blocks r.1
  let trees := (List.zipWith
    (fun (b : StructBlock) (ann : List ATree) => emitRoots ann b.il_idx)
    s.blocks r.1).flatten
  { blocks := blocks, local_vars := s.local_vars, ir_idx_count := r.2,
    trees := trees }

/-- Tree table lookup by ir_idx. -/
def FlatIr.tree (ir : FlatIr) (i : Nat) : Option FlatTree :=
  ir.trees.find? (fun t => t.ir_idx == i)

/-- BasicBlock.outgoing_edges from src/ir.py: the operands of the last
statement's tree, each asserted to be a BlockEdge. -/
def outgoing_edges (ir : FlatIr) (b : FlatBlock) : Except String (List Nat) := do
  let lastRoot ← req (b.stmts.getLast?.map (·.2))
    "AttributeError: NoneType object has no attribute tree"
  let t ← req (ir.tree lastRoot) "dangling tree reference"
  t.operands.mapM (fun o =>
    match o with
    | .edge target => .ok target
    | _ => .error "AssertionError: operand isn't block edge")

/-- Append one predecessor entry to the block with the given il_idx. -/
def addPredecessor (blocks : List FlatBlock) (target src : Nat) :
    Except String (List FlatBlock) :=
  if blocks.any (fun b => b.il_idx == target) then
    .ok (blocks.map (fun b =>
      if b.il_idx == target then
        { b with predecessors := b.predecessors ++ [src] }
      else b))
  else .error "dangling block edge target"

/-- One iteration of the Ir.recompute_predecessors loop: look up the
block being visited, read its outgoing edges, and append it to each
target's predecessor list. -/
def recomputeStep (ir : FlatIr) (blocks : List FlatBlock) (il : Nat) :
    Except String (List FlatBlock) := do
  let b ← req (blocks.find? (fun b => b.il_idx == il)) "dangling block"
  let targets ← outgoing_edges { ir with blocks := blocks } b
  targets.foldlM (fun blocks t => addPredecessor blocks t il) blocks

/-- Ir.recompute_predecessors from src/ir.py: walk every block, and for
each outgoing edge append the source block to the target's predecessor
list.  Existing predecessor entries are never cleared. -/
def recompute_predecessors (ir : FlatIr) : Except String FlatIr := do
  let ils := ir.blocks.map (·.il_idx)
  let blocks ← ils.foldlM (recomputeStep ir) ir.blocks
  pure { ir with blocks := blocks }

/-! Embedding of src/lsra.py.  Intervals are identified by their `of`
field, which is unique: one variable interval per local, one tree-temp
interval per value-producing tree (keyed by its ir_idx). -/

/-- Identity of an Interval: its `of` field, a local index or the
producing tree. -/
inductive IvId where
  | loc (l : Nat)
  | tmp (t : Nat)
deriving DecidableEq, Repr

/-- UsePos from src/lsra.py: the tree performing the access is stored
by its ir_idx. -/
structure UsePos where
  used_in : Nat
  on_block_boundary : Bool
deriving DecidableEq, Repr

/-- WritePos from src/lsra.py. -/
structure WritePos where
  used_in : Nat
  on_block_boundary : Bool
deriving DecidableEq, Repr

/-- Interval from src/lsra.py; live_range is inlined as the
first_write_at and last_read_at bounds, and live_in holds the register
index (Python stores a plain int there, including the placeholder -1
handling, so the register is an Int). -/
structure Interval where
  of : IvId
  use_positions : List UsePos
  write_positions : List WritePos
  first_write_at : Int
  last_read_at : Int
  live_in : Option Int
deriving DecidableEq, Repr

/-- RegSpill from src/lsra.py. -/
structure RegSpill where
  reg : Int
  interval : IvId
deriving DecidableEq, Repr

/-- RegRestore from src/lsra.py. -/
structure RegRestore where
  reg : Int
  interval : IvId
deriving DecidableEq, Repr

/-- RegMove from src/lsra.py. -/
structure RegMove where
  reg_from : Int
  reg_to : Int
  interval : IvId
deriving DecidableEq, Repr

/-- CBActiveInterval from src/lsra.py. -/
structure CBActiveInterval where
  reg : Int
  interval : IvId
deriving DecidableEq, Repr

/-- Interval.first_use_pos: the first use position whose tree index is
at least the given position (use positions are scanned in order,
skipping the ones strictly before the position). -/
def Interval.first_use_pos (iv : Interval) (current_pos : Nat) : Option UsePos :=
  iv.use_positions.find? (fun u => decide (current_pos ≤ u.used_in))

/-- Interval.first_write_pos, symmetric to first_use_pos. -/
def Interval.first_write_pos (iv : Interval) (current_pos : Nat) : Option WritePos :=
  iv.write_positions.find? (fun w => decide (current_pos ≤ w.used_in))

/-- Generic association-list lookup (first matching key). -/
def alookup {κ α : Type} [DecidableEq κ] : List (κ × α) → κ → Option α
  | [], _ => none
  | p :: l, k => if p.1 = k then some p.2 else alookup l k

/-- Generic association-list insert-or-update (first matching key is
replaced; a missing key is appended at the end). -/
def aupsert {κ α : Type} [DecidableEq κ] : List (κ × α) → κ →
    (Option α → α) → List (κ × α)
  | [], k, f => [(k, f none)]
  | p :: l, k, f => if p.1 = k then (k, f (some p.2)) :: l else p :: aupsert l k f

theorem alookup_aupsert {κ α : Type} [DecidableEq κ] (l : List (κ × α)) (k : κ)
    (f : Option α → α) : alookup (aupsert l k f) k = some (f (alookup l k)) := by
  induction l with
  | nil => simp [alookup, aupsert]
  | cons p l ih =>
    by_cases h : p.1 = k
    · simp [alookup, aupsert, h]
    · simp [alookup, aupsert, h, ih]

theorem alookup_aupsert_ne {κ α : Type} [DecidableEq κ] (l : List (κ × α))
    (k k2 : κ) (f : Option α → α) (h : k2 ≠ k) :
    alookup (aupsert l k f) k2 = alookup l k2 := by
  induction l with
  | nil => simp [alookup, aupsert, Ne.symm h]
  | cons p l ih =>
    by_cases hp : p.1 = k
    · subst hp
      simp [alookup, aupsert, Ne.symm h]
    · simp [alookup, aupsert, hp, ih]

/-- The mutable state of the Lsra class together with the allocation
results written onto trees, blocks and edges (Python mutates the Ir in
place; here those fields live beside the allocator state).  Edge
records are keyed by (source block il_idx, operand position of the
edge in the terminator). -/
structure LsraState where
  registers : List (Option IvId)
  intervals : List (IvId × Interval)
  active_intervals : List IvId
  tree_regs : List (Nat × Int)
  tree_spills : List (Nat × List RegSpill)
  tree_restores : List (Nat × List RegRestore)
  st_extra_operands : List (Nat × List (Option Int))
  block_active_in : List (Nat × List CBActiveInterval)
  block_active_out : List (Nat × List CBActiveInterval)
  edge_spills : List ((Nat × Nat) × List RegSpill)
  edge_moves : List ((Nat × Nat) × List RegMove)
  edge_restores : List ((Nat × Nat) × List RegRestore)
  allow_operand_reuse : Bool
  current_block : Nat
  current_tree : Nat
deriving Repr

/-- Python list indexing: non-negative indices must be in range,
negative indices wrap from the end. -/
def pyIndex (n : Nat) (i : Int) : Except String Nat :=
  if 0 ≤ i ∧ i < (n : Int) then .ok i.toNat
  else if -(n : Int) ≤ i ∧ i < 0 then .ok ((n : Int) + i).toNat
  else .error "IndexError: list index out of range"

def getIv (st : LsraState) (id : IvId) : Except String Interval :=
  req (alookup st.intervals id) "dangling interval reference"

def setIv (st : LsraState) (id : IvId) (iv : Interval) : LsraState :=
  { st with intervals := aupsert st.intervals id (fun _ => iv) }

def getRegister (st : LsraState) (i : Int) : Except String (Option IvId) := do
  let j ← pyIndex st.registers.length i
  pure ((st.registers.get? j).getD none)

def setRegister (st : LsraState) (i : Int) (v : Option IvId) :
    Except String LsraState := do
  let j ← pyIndex st.registers.length i
  pure { st with registers := st.registers.set j v }

/-- list.remove: drop the first occurrence, error when absent. -/
def removeActive (st : LsraState) (id : IvId) : Except String LsraState :=
  if st.active_intervals.contains id then
    pure { st with active_intervals := st.active_intervals.erase id }
  else .error "ValueError: list.remove(x): x not in list"

def treeReg (st : LsraState) (i : Nat) : Int :=
  (alookup st.tree_regs i).getD (-1)

def setTreeReg (st : LsraState) (i : Nat) (r : Int) : LsraState :=
  { st with tree_regs := aupsert st.tree_regs i (fun _ => r) }

def treeSpills (st : LsraState) (i : Nat) : List RegSpill :=
  (alookup st.tree_spills i).getD []

def appendTreeSpill (st : LsraState) (i : Nat) (sp : RegSpill) : LsraState :=
  { st with tree_spills := aupsert st.tree_spills i (fun o => o.getD [] ++ [sp]) }

def treeRestores (st : LsraState) (i : Nat) : List RegRestore :=
  (alookup st.tree_restores i).getD []

def appendTreeRestore (st : LsraState) (i : Nat) (r : RegRestore) : LsraState :=
  { st with tree_restores := aupsert st.tree_restores i (fun o => o.getD [] ++ [r]) }

/-- Overwrite the register of the restore record stored at position j of
tree i's restore list (the restore.reg = ... assignment). -/
def setRestoreReg (st : LsraState) (i j : Nat) (reg : Int) : LsraState :=
  { st with tree_restores := (aupsert st.tree_restores i (fun o =>
      (o.getD []).mapIdx (fun k r => if k == j then { r with reg := reg } else r))) }

/-- Lsra.free_intervals, iterating over a snapshot of active_intervals
exactly as the Python for loop does, keeping the intervals whose last
use is not reached and freeing the registers of the others. -/
def free_intervals_go (ir : FlatIr) :
    List IvId → LsraState → List IvId → Except String LsraState
  | [], st, kept => .ok { st with active_intervals := kept }
  | id :: rest, st, kept => do
    let pos := st.current_tree
    let iv ← getIv st id
    let r1 := decide (iv.last_read_at < (pos : Int))
    let r2 ←
      if !r1 && st.allow_operand_reuse then
        match iv.first_use_pos pos with
        | some u => pure (if !u.on_block_boundary then iv.last_read_at == (pos : Int) else r1)
        | none => pure r1
      else pure r1
    let r3 ←
      if !r2 then
        match iv.first_use_pos pos, iv.first_write_pos pos with
        | some u, some w => do
          let ut ← req (ir.tree u.used_in) "dangling tree reference"
          if ut.block_il == st.current_block then
            let a := decide (w.used_in < u.used_in)
            if !a && st.allow_operand_reuse && !w.on_block_boundary then
              pure (w.used_in == u.used_in)
            else pure a
          else pure r2
        | _, _ => pure r2
      else pure r2
    if !r3 then
      free_intervals_go ir rest st (kept ++ [id])
    else do
      let liveIn ← req iv.live_in "TypeError: list indices must be integers or slices, not NoneType"
      let st ← setRegister st liveIn none
      let st := setIv st id { iv with live_in := none }
      free_intervals_go ir rest st kept

/-- Lsra.free_intervals from src/lsra.py. -/
def free_intervals (ir : FlatIr) (st : LsraState) : Except String LsraState :=
  free_intervals_go ir st.active_intervals st []

/-- The register scan of Lsra.try_activate_with_free_reg.  The result
carries the register slot that will receive the interval (best_reg, the
register object) and the register index that will be recorded
(best_reg_i): when a free register matching an operand of the next use
is preferred, the source sets best_reg to that register but leaves
best_reg_i unchanged. -/
def tryActivateScan (ir : FlatIr) (st : LsraState) (inter : Interval) :
    List Nat → Option (Nat × Nat) → Except String (Option (Nat × Nat))
  | [], best => .ok best
  | i :: rest, best =>
    if ((st.registers.get? i).getD none).isSome then
      tryActivateScan ir st inter rest best
    else
      match best with
      | none => tryActivateScan ir st inter rest (some (i, i))
      | some (_, recIdx) => do
        let u ← req (inter.first_use_pos st.current_tree)
          "AttributeError: NoneType object has no attribute used_in"
        let ut ← req (ir.tree u.used_in) "dangling tree reference"
        if ut.subtrees.any (fun s => treeReg st s == (i : Int)) then
          .ok (some (i, recIdx))
        else tryActivateScan ir st inter rest best

/-- Lsra.try_activate_with_free_reg from src/lsra.py. -/
def try_activate_with_free_reg (ir : FlatIr) (st : LsraState) (interId : IvId) :
    Except String (Bool × LsraState) := do
  let inter ← getIv st interId
  let best ← tryActivateScan ir st inter (List.range st.registers.length) none
  match best with
  | none => pure (false, st)
  | some (slot, recIdx) => do
    let st ←
      if interId == .tmp st.current_tree then pure st
      else
        if (treeRestores st st.current_tree).any (fun r => r.interval == interId) then
          pure st
        else
          pure (appendTreeRestore st st.current_tree
            { reg := (recIdx : Int), interval := interId })
    let st := setIv st interId { inter with live_in := some (recIdx : Int) }
    let st := { st with registers := st.registers.set slot (some interId) }
    let st := { st with active_intervals := st.active_intervals ++ [interId] }
    pure (true, st)

/-- Lsra.spill_interval from src/lsra.py: record the spill on the
current tree, pre-insert the placeholder restore at the next use for
tree-temp intervals (the comment in the source notes that restores for
variable intervals are inserted at the time of use instead), and free
the register. -/
def spill_interval (st : LsraState) (interId : IvId) :
    Except String (LsraState × Int) := do
  let inter ← getIv st interId
  let liveIn ← req inter.live_in
    "AssertionError: trying to spill an interval that's not active"
  let st := appendTreeSpill st st.current_tree { reg := liveIn, interval := interId }
  let st ←
    match interId with
    | .loc _ => pure st
    | .tmp _ => do
      let u ← req (inter.first_use_pos st.current_tree)
        "AttributeError: NoneType object has no attribute used_in"
      pure (appendTreeRestore st u.used_in { reg := -1, interval := interId })
  let st := setIv st interId { inter with live_in := none }
  let st ← removeActive st interId
  let st ← setRegister st liveIn none
  pure (st, liveIn)

/-- The spill-candidate loop of Lsra.activate_interval: scan the active
intervals; an interval with no next use is selected immediately
(breaking the scan); an interval whose next use is at or before the
activating interval's next use is skipped; otherwise keep the interval
with the furthest next use, first seen winning ties. -/
def findSpillCandidate (st : LsraState) (current_pos : Nat) (interUse : Nat) :
    List IvId → Option (IvId × Nat) → Except String (Option IvId)
  | [], best => .ok (best.map (·.1))
  | id :: rest, best => do
    let iv ← getIv st id
    match iv.first_use_pos current_pos with
    | none => .ok (some id)
    | some u =>
      if u.used_in ≤ interUse then
        findSpillCandidate st current_pos interUse rest best
      else
        match best with
        | none => findSpillCandidate st current_pos interUse rest (some (id, u.used_in))
        | some (_, bu) =>
          if u.used_in > bu then
            findSpillCandidate st current_pos interUse rest (some (id, u.used_in))
          else
            findSpillCandidate st current_pos interUse rest best

/-- Lsra.activate_interval from src/lsra.py. -/
def activate_interval (ir : FlatIr) (st : LsraState) (interId : IvId) :
    Except String LsraState := do
  let inter ← getIv st interId
  if inter.live_in.isSome then pure st
  else do
    let r ← try_activate_with_free_reg ir st interId
    if r.1 then pure r.2
    else do
      let st := r.2
      let interUsePos ← req (inter.first_use_pos st.current_tree)
        "AssertionError: activating an interval with no remaining use"
      let best ← findSpillCandidate st st.current_tree interUsePos.used_in
        st.active_intervals none
      match best with
      | none => .error "No intervals elligible for spilling"
      | some victim => do
        let r2 ← spill_interval st victim
        let st := r2.1
        let inter2 ← getIv st interId
        let st := setIv st interId { inter2 with live_in := some r2.2 }
        let st ← setRegister st r2.2 (some interId)
        pure { st with active_intervals := st.active_intervals ++ [interId] }

/-- Read tree.operands[0] as a local-variable index into the
var_intervals list (Python list indexing semantics). -/
def localOperand (ir : FlatIr) (t : FlatTree) : Except String Nat :=
  match t.operands.get? 0 with
  | some (.num n) => pyIndex ir.local_vars n
  | some _ => .error "TypeError: list indices must be integers"
  | none => .error "IndexError: list index out of range"

/-- The fresh variable intervals created at the start of
do_linear_scan: first_write_at = ir_idx_count, last_read_at = -1. -/
def initVarIntervals (ir : FlatIr) : List (IvId × Interval) :=
  (List.range ir.local_vars).map (fun i =>
    (.loc i, { of := .loc i, use_positions := [], write_positions := [],
               first_write_at := (ir.ir_idx_count : Int), last_read_at := -1,
               live_in := none }))

/-- Phase A per-tree step of do_linear_scan: StLocal records a WritePos
at the tree and lowers first_write_at; LdLocal records a UsePos at the
LdLocal tree itself and raises last_read_at to the parent's ir_idx. -/
def discoverTree (ir : FlatIr) (st : LsraState) (t : FlatTree) :
    Except String LsraState := do
  let st ←
    if t.kind == .stLocal then do
      let l ← localOperand ir t
      let iv ← getIv st (.loc l)
      let iv := if (t.ir_idx : Int) < iv.first_write_at then
          { iv with first_write_at := (t.ir_idx : Int) } else iv
      let iv := { iv with write_positions :=
          iv.write_positions ++ [{ used_in := t.ir_idx, on_block_boundary := false }] }
      pure (setIv st (.loc l) iv)
    else pure st
  if t.kind == .ldLocal then do
    let l ← localOperand ir t
    let iv ← getIv st (.loc l)
    let p ← req t.parent "AttributeError: NoneType object has no attribute ir_idx"
    let iv := if (p : Int) > iv.last_read_at then
        { iv with last_read_at := (p : Int) } else iv
    let iv := { iv with use_positions :=
        iv.use_positions ++ [{ used_in := t.ir_idx, on_block_boundary := false }] }
    pure (setIv st (.loc l) iv)
  else pure st

/-- The pessimization at the end of each Phase A block: every variable
interval is considered live to the end of the function. -/
def pessimizeVars (ir : FlatIr) (st : LsraState) : LsraState :=
  { st with intervals := st.intervals.map (fun p =>
      match p.1 with
      | .loc _ => (p.1, { p.2 with last_read_at := (ir.ir_idx_count : Int) })
      | .tmp _ => p) }

/-- The spill-record loop at the top of the Phase B tree step. -/
def applyTreeSpills (st : LsraState) (t : FlatTree) : Except String LsraState :=
  (treeSpills st t.ir_idx).foldlM (fun st sp => do
    let iv ← getIv st sp.interval
    let liveIn ← req iv.live_in "AssertionError: spill of interval that's not active"
    if sp.reg != liveIn then
      .error "AssertionError: spill register and register of interval to spill don't match"
    else do
      let st ← removeActive st sp.interval
      let st ← setRegister st sp.reg none
      pure (setIv st sp.interval { iv with live_in := none })) st

/-- The restore-record loop of the Phase B tree step: iterated by index
because try_activate_with_free_reg may append further restores to the
list being walked (Python iterates the live list). -/
def applyTreeRestores (ir : FlatIr) (t : FlatTree) :
    Nat → Nat → LsraState → Except String LsraState
  | 0, _, _ => .error "out of fuel processing restores"
  | fuel + 1, j, st => do
    let rs := treeRestores st t.ir_idx
    match rs.get? j with
    | none => .ok st
    | some r => do
      let iv ← getIv st r.interval
      if iv.live_in.isSome then
        .error "AssertionError: finding a restore reg for an interval that's already active"
      else do
        let st ← activate_interval ir st r.interval
        let iv2 ← getIv st r.interval
        let liveIn ← req iv2.live_in "restore without register after activation"
        let st := setRestoreReg st t.ir_idx j liveIn
        applyTreeRestores ir t fuel (j + 1) st

/-- The Phase B per-kind handling of a StLocal tree. -/
def scanStLocal (ir : FlatIr) (st : LsraState) (t : FlatTree) :
    Except String LsraState := do
  let l ← localOperand ir t
  let iv ← getIv st (.loc l)
  let childIdx ← req (t.subtrees.get? 0) "IndexError: list index out of range"
  let childReg := treeReg st childIdx
  let differs :=
    match iv.live_in with
    | some r => childReg != r
    | none => true
  let st ←
    if differs then do
      let occ ← getRegister st childReg
      let st ←
        match occ with
        | some occId =>
          match occId with
          | .loc _ => do
            let r ← spill_interval st occId
            pure r.1
          | .tmp _ => removeActive st occId
        | none => pure st
      let iv2 ← getIv st (.loc l)
      let st ←
        match iv2.live_in with
        | some r => setRegister st r none
        | none => pure { st with active_intervals := st.active_intervals ++ [.loc l] }
      let st := setIv st (.loc l) { iv2 with live_in := some childReg }
      let st ← setRegister st childReg (some (.loc l))
      pure st
    else pure st
  let iv3 ← getIv st (.loc l)
  pure { st with st_extra_operands := (aupsert st.st_extra_operands t.ir_idx
      (fun o => o.getD [] ++ [iv3.live_in])) }

/-- The Phase B per-tree step of do_linear_scan. -/
def scanTree (ir : FlatIr) (st : LsraState) (t : FlatTree) :
    Except String LsraState := do
  let st := { st with current_tree := t.ir_idx }
  let saved := st.allow_operand_reuse
  let st := { st with allow_operand_reuse := false }
  let st ← free_intervals ir st
  let st ← applyTreeSpills st t
  let st ← applyTreeRestores ir t
    ((treeRestores st t.ir_idx).length + st.intervals.length + 8) 0 st
  let st := { st with allow_operand_reuse := saved }
  let st ← if saved then free_intervals ir st else pure st
  if t.kind == .ldLocal then do
    let l ← localOperand ir t
    let st ← activate_interval ir st (.loc l)
    let iv ← getIv st (.loc l)
    let liveIn ← req iv.live_in "LdLocal without register after activation"
    pure (setTreeReg st t.ir_idx liveIn)
  else if t.kind == .stLocal then
    scanStLocal ir st t
  else
    match t.parent with
    | some p => do
      let iv : Interval :=
        { of := .tmp t.ir_idx,
          write_positions := [{ used_in := t.ir_idx, on_block_boundary := false }],
          use_positions := [{ used_in := p, on_block_boundary := false }],
          first_write_at := (t.ir_idx : Int), last_read_at := (p : Int),
          live_in := none }
      let st := setIv st (.tmp t.ir_idx) iv
      let st ← activate_interval ir st (.tmp t.ir_idx)
      let iv2 ← getIv st (.tmp t.ir_idx)
      let liveIn ← req iv2.live_in "tree temp without register after activation"
      pure (setTreeReg st t.ir_idx liveIn)
    | none => pure st

/-- The start-of-block handling of Phase B: clear the register file and
the active set, then adopt the active_out set of the first predecessor
that has one (asserting that one exists). -/
def startBlock (st : LsraState) (b : FlatBlock) : Except String LsraState := do
  let st := { st with current_block := b.il_idx }
  let st := { st with registers := st.registers.map (fun _ => none) }
  let st ← st.active_intervals.foldlM (fun st id => do
      let iv ← getIv st id
      pure (setIv st id { iv with live_in := none })) st
  let st := { st with active_intervals := [] }
  if b.predecessors.isEmpty then pure st
  else do
    let a_in ← req (b.predecessors.findSome? (fun p => alookup st.block_active_out p))
      "AssertionError: no predecessor with active_out set"
    let st ← a_in.foldlM (fun st cba => do
        let st ← setRegister st cba.reg (some cba.interval)
        let iv ← getIv st cba.interval
        let st := setIv st cba.interval { iv with live_in := some cba.reg }
        pure { st with active_intervals := st.active_intervals ++ [cba.interval] }) st
    pure { st with block_active_in := (aupsert st.block_active_in b.il_idx (fun _ => a_in)) }

/-- The end-of-block handling of Phase B: drop leftover tree temps and
record the active_out set. -/
def endBlock (st : LsraState) (b : FlatBlock) : Except String LsraState := do
  let r ← st.active_intervals.foldlM
    (fun (acc : LsraState × List IvId) id => do
      let st := acc.1
      match id with
      | .tmp _ => do
        let iv ← getIv st id
        let liveIn ← req iv.live_in
          "TypeError: list indices must be integers or slices, not NoneType"
        let st ← setRegister st liveIn none
        let st := setIv st id { iv with live_in := none }
        pure (st, acc.2)
      | .loc _ => pure (st, acc.2 ++ [id])) (st, [])
  let st := { r.1 with active_intervals := r.2 }
  let outs ← st.active_intervals.mapM (fun id => do
    match id with
    | .tmp _ => .error "AssertionError: active tree temp encountered after block ended"
    | .loc _ => do
      let iv ← getIv st id
      let liveIn ← req iv.live_in "active interval without register"
      pure ({ reg := liveIn, interval := id } : CBActiveInterval))
  pure { st with block_active_out := (aupsert st.block_active_out b.il_idx (fun _ => outs)) }

/-- Phase B on one block. -/
def scanBlock (ir : FlatIr) (st : LsraState) (b : FlatBlock) :
    Except String LsraState := do
  let st ← startBlock st b
  let st ← b.tree_idxs.foldlM (fun st ti => do
      let t ← req (ir.tree ti) "dangling tree reference"
      scanTree ir st t) st
  endBlock st b

/-- Phase C on one edge (identified by source block and operand
position): spill values not live into the target, move values whose
registers differ, restore values live into the target but not out of
the source. -/
def reconcileEdge (st : LsraState) (src : Nat) (ei : Nat) (target : Nat) :
    Except String LsraState := do
  let out ← req (alookup st.block_active_out src) "block without active_out"
  let tin ← req (alookup st.block_active_in target)
    "TypeError: NoneType object is not iterable"
  let st := out.foldl (fun st ao =>
    if tin.any (fun ai => ai.interval == ao.interval) then st
    else { st with edge_spills := (aupsert st.edge_spills (src, ei)
        (fun o => o.getD [] ++ [{ reg := ao.reg, interval := ao.interval }])) }) st
  let st := out.foldl (fun st ao =>
    tin.foldl (fun st ai =>
      if ao.interval == ai.interval && ao.reg != ai.reg then
        { st with edge_moves := (aupsert st.edge_moves (src, ei)
            (fun o => o.getD [] ++
              [{ reg_from := ao.reg, reg_to := ai.reg, interval := ao.interval }])) }
      else st) st) st
  let st := tin.foldl (fun st ai =>
    if out.any (fun ao => ao.interval == ai.interval) then st
    else { st with edge_restores := (aupsert st.edge_restores (src, ei)
        (fun o => o.getD [] ++ [{ reg := ai.reg, interval := ai.interval }])) }) st
  pure st

/-- Lsra.do_linear_scan from src/lsra.py: Phase A interval discovery
with per-block pessimization, Phase B per-block linear scan, Phase C
edge reconciliation. -/
def do_linear_scan (num_regs : Nat) (reuse : Bool) (ir : FlatIr) :
    Except String LsraState := do
  let st0 : LsraState :=
    { registers := List.replicate num_regs none,
      intervals := initVarIntervals ir,
      active_intervals := [], tree_regs := [], tree_spills := [],
      tree_restores := [], st_extra_operands := [],
      block_active_in := [], block_active_out := [],
      edge_spills := [], edge_moves := [], edge_restores := [],
      allow_operand_reuse := reuse, current_block := 0, current_tree := 0 }
  let st ← ir.blocks.foldlM (fun st b => do
      let st ← b.tree_idxs.foldlM (fun st ti => do
          let t ← req (ir.tree ti) "dangling tree reference"
          discoverTree ir st t) st
      pure (pessimizeVars ir st)) st0
  let st ← ir.blocks.foldlM (scanBlock ir) st
  let st ← ir.blocks.foldlM (fun st b => do
      let targets ← outgoing_edges ir b
      targets.enum.foldlM (fun st p => reconcileEdge st b.il_idx p.1 p.2) st) st
  pure st

theorem exc_bind_ok {ε α β : Type} (x : α) (f : α → Except ε β) :
    (Except.ok x >>= f) = f x := rfl

theorem exc_bind_error {ε α β : Type} (e : ε) (f : α → Except ε β) :
    ((Except.error e : Except ε α) >>= f) = .error e := rfl

theorem exc_pure {ε α : Type} (x : α) : (pure x : Except ε α) = .ok x := rfl

theorem req_some {α : Type} (a : α) (msg : String) : req (some a) msg = .ok a := rfl

theorem req_none {α : Type} (msg : String) : req (none : Option α) msg = .error msg := rfl

theorem treeSpills_append (st : LsraState) (i : Nat) (sp : RegSpill) :
    treeSpills (appendTreeSpill st i sp) i = treeSpills st i ++ [sp] := by
  simp [treeSpills, appendTreeSpill, alookup_aupsert]

theorem treeRestores_append (st : LsraState) (i : Nat) (r : RegRestore) :
    treeRestores (appendTreeRestore st i r) i = treeRestores st i ++ [r] := by
  simp [treeRestores, appendTreeRestore, alookup_aupsert]

theorem treeRestores_append_ne (st : LsraState) (i j : Nat) (r : RegRestore)
    (h : j ≠ i) : treeRestores (appendTreeRestore st i r) j = treeRestores st j := by
  simp [treeRestores, appendTreeRestore, alookup_aupsert_ne _ _ _ _ h]

/-- Invariant I1: for each register r, registers[r].active_interval is
none or an interval whose live_in equals r. -/
def regsConsistent (st : LsraState) : Bool :=
  (List.range st.registers.length).all (fun r =>
    match (st.registers.get? r).getD none with
    | none => true
    | some id =>
      match alookup st.intervals id with
      | some iv => iv.live_in == some (r : Int)
      | none => false)

/-- No element occurs twice. -/
def allDistinct {α : Type} [DecidableEq α] : List α → Bool
  | [] => true
  | x :: xs => (!xs.contains x) && allDistinct xs

/-- The invariant of claim C3: I1 together with register exclusivity
(no two active intervals share a live_in value). -/
def lsraInvariant (st : LsraState) : Bool :=
  regsConsistent st &&
    allDistinct (st.active_intervals.map (fun id =>
      (alookup st.intervals id).bind (·.live_in)))

/-! Concrete scenario of claim C3: activating a variable interval while
two registers are free and the interval's next use is a BinOp one of
whose operand subtrees carries register 1. -/

/-- A four-tree Ir (LdLocal, LdLocal, BinOp, Ret) for the C3 scenario. -/
def c3_ir : FlatIr :=
  { blocks := [{ il_idx := 0, stmts := [(0, 3)], tree_idxs := [0, 1, 2, 3],
                 predecessors := [] }],
    local_vars := 1, ir_idx_count := 4,
    trees :=
      [{ kind := .ldLocal, operands := [.num 0], subtrees := [], parent := some 2,
         ir_idx := 0, block_il := 0 },
       { kind := .ldLocal, operands := [.num 0], subtrees := [], parent := some 2,
         ir_idx := 1, block_il := 0 },
       { kind := .binOp, operands := [.op .add], subtrees := [0, 1], parent := some 3,
         ir_idx := 2, block_il := 0 },
       { kind := .ret, operands := [], subtrees := [2], parent := none,
         ir_idx := 3, block_il := 0 }] }

/-- Allocator state at tree 1: both registers free, local 0's interval
inactive with its next use in tree 2, and tree 0 already carrying
register 1 (as after an earlier spill of its temp). -/
def c3_state : LsraState :=
  { registers := [none, none],
    intervals := [(.loc 0,
      { of := .loc 0,
        use_positions := [{ used_in := 2, on_block_boundary := false }],
        write_positions := [], first_write_at := 4, last_read_at := 4,
        live_in := none })],
    active_intervals := [], tree_regs := [(0, 1)], tree_spills := [],
    tree_restores := [], st_extra_operands := [], block_active_in := [],
    block_active_out := [], edge_spills := [], edge_moves := [],
    edge_restores := [], allow_operand_reuse := true,
    current_block := 0, current_tree := 1 }

/-- C3: the invariant holds before activating local 0's interval, yet
activate_interval installs the interval into register 1 (the free
register matching an operand of the next use) while recording live_in
= 0 (try_activate_with_free_reg never copies the preferred register's
index into best_reg_i), leaving registers[1] holding an interval whose
live_in is 0 — invariant I1 is violated right after an interval
activation. -/
theorem C3_code_bug :
    lsraInvariant c3_state = true ∧
    ((activate_interval c3_ir c3_state (.loc 0)).map (fun st =>
        (lsraInvariant st, st.registers,
         (alookup st.intervals (.loc 0)).map (·.live_in))))
      = .ok (false, [none, some (.loc 0)], some (some 0)) :=
  ⟨rfl, rfl⟩

/-! Concrete scenario of claim C1: two LdLocal 0, Add, Ret over a
2-register machine. -/

/-- The stack program LdLocal 0, LdLocal 0, Add, Ret with one local. -/
def c1_program : StackFunction :=
  { local_vars := 1,
    instructions := [⟨.ldLocal, [.num 0]⟩, ⟨.ldLocal, [.num 0]⟩,
                     ⟨.add, []⟩, ⟨.ret, []⟩] }

/-- import_to_ir, reindex (flattenIr), recompute_predecessors and
do_linear_scan with num_regs = 2 on c1_program. -/
def c1_result : Except String (FlatIr × LsraState) := do
  let s ← import_to_ir c1_program
  let f := flattenIr s
  let f2 ← recompute_predecessors f
  let st ← do_linear_scan 2 true f2
  pure (f2, st)

/-- C1: the pipeline on c1_program never succeeds — fold constructs
the first LdLocal tree without the Tree dataclass's required block
field, so import_to_ir raises a TypeError at instruction 0 and neither
the claimed single block nor the register assignment (0, 1, 0) is ever
produced. -/
theorem C1_code_bug :
    c1_result
      = .error "TypeError: Tree.__init__() missing 1 required positional argument: block"
      := rfl

/-! Concrete scenario of claim C2: an imported Jmp terminator. -/

/-- A program whose final Jmp targets instruction 0: LdLocal 0, Pop,
Jmp 0. -/
def c2_program : StackFunction :=
  { local_vars := 1,
    instructions := [⟨.ldLocal, [.num 0]⟩, ⟨.pop, []⟩, ⟨.jmp, [.num 0]⟩] }

/-- The Ir shape the importer's Jmp case writes in the source text,
where fold(TreeKind.Jmp, 0, [target]) stores the target BasicBlock
itself — not a BlockEdge — as the terminator operand: a Discard
statement followed by a Jmp carrying a raw block reference to il 0. -/
def c2_raw_ir : FlatIr :=
  { blocks := [{ il_idx := 0, stmts := [(0, 1), (2, 2)], tree_idxs := [0, 1, 2],
                 predecessors := [] }],
    local_vars := 1, ir_idx_count := 3,
    trees :=
      [{ kind := .ldLocal, operands := [.num 0], subtrees := [], parent := some 1,
         ir_idx := 0, block_il := 0 },
       { kind := .discard, operands := [], subtrees := [0], parent := none,
         ir_idx := 1, block_il := 0 },
       { kind := .jmp, operands := [.blockRef 0], subtrees := [], parent := none,
         ir_idx := 2, block_il := 0 }] }

/-- C2: import_to_ir accepts no StackFunction containing a Jmp — fold
raises a TypeError (missing block argument) at the first instruction of
c2_program, so the claimed BlockEdge-only invariant is never
established; moreover the Jmp case of the source stores the target
BasicBlock itself as the terminator operand, and on an Ir of that shape
(c2_raw_ir) Block.outgoing_edges — and with it
Ir.recompute_predecessors — fails its isinstance assertion. -/
theorem C2_code_bug :
    import_to_ir c2_program
      = .error "TypeError: Tree.__init__() missing 1 required positional argument: block" ∧
    recompute_predecessors c2_raw_ir
      = .error "AssertionError: operand isn't block edge" :=
  ⟨rfl, rfl⟩

/-! Concrete scenario of claim C7: the Ret case performs no leftover
check. -/

/-- A malformed program leaving one operand on the stack at Ret:
LdLocal 0, LdLocal 0, Ret. -/
def c7_program : StackFunction :=
  { local_vars := 1,
    instructions := [⟨.ldLocal, [.num 0]⟩, ⟨.ldLocal, [.num 0]⟩, ⟨.ret, []⟩] }

/-- The same malformed shape routed through Pop instead, which does
check: LdLocal 0, LdLocal 0, Pop, Ret. -/
def c7_pop_program : StackFunction :=
  { local_vars := 1,
    instructions := [⟨.ldLocal, [.num 0]⟩, ⟨.ldLocal, [.num 0]⟩,
                     ⟨.pop, []⟩, ⟨.ret, []⟩] }

/-- C7: the flush-and-reject behaviour the claim describes never runs —
fold raises a TypeError (missing block argument) at instruction 0 of
both c7_program and c7_pop_program, so the importer neither flushes the
Ret statement nor reports "Leftover stack operands" for the Pop
variant; in the source text the Ret case additionally lacks the
leftover-operand check that the StLocal and Pop cases perform. -/
theorem C7_code_bug :
    import_to_ir c7_program
      = .error "TypeError: Tree.__init__() missing 1 required positional argument: block" ∧
    import_to_ir c7_pop_program
      = .error "TypeError: Tree.__init__() missing 1 required positional argument: block" :=
  ⟨rfl, rfl⟩

/-! Concrete scenario of claim C4: splicing a new block after an
existing one. -/

/-- A block list holding one statement at il_idx 0, then
get_or_insert_block_at 1 (which splices a new empty block after it). -/
def c4_setup : Except String (BlockArena × Nat) := do
  let a ← append_tree BlockArena.init 0 0 (.node .ret [] .nil)
  get_or_insert_block_at a 1

/-- C4: after the splice the old block's next_block is the new block,
but the new block's prev_block is none — it was initialized from the
old block's prev_block instead of the old block itself — so the block
links do not form a well-formed doubly linked list (a block's
next_block's prev_block fails to point back to it). -/
theorem C4_code_bug :
    (c4_setup.map (fun p =>
      ((lookupA p.1.blocks 0).map (·.next_block),
       (lookupA p.1.blocks 1).map (·.prev_block))))
      = .ok (some (some 1), some none) ∧
    (c4_setup.map (fun p =>
      ((lookupA p.1.blocks 0).map (·.next_block),
       (lookupA p.1.blocks 1).map (·.prev_block))))
      ≠ .ok (some (some 1), some (some 0)) := by
  refine ⟨rfl, ?_⟩
  intro h
  rw [show (c4_setup.map (fun p =>
      ((lookupA p.1.blocks 0).map (·.next_block),
       (lookupA p.1.blocks 1).map (·.prev_block))))
      = .ok (some (some 1), some none) from rfl] at h
  simp at h

/-! Claim C5: the records written by spill_interval. -/

/-- Allocator state at tree 2 with an active variable interval for
local 0 (next use in tree 5) occupying register 0. -/
def c5_var_state : LsraState :=
  { registers := [some (.loc 0)],
    intervals := [(.loc 0,
      { of := .loc 0,
        use_positions := [{ used_in := 5, on_block_boundary := false }],
        write_positions := [], first_write_at := 9, last_read_at := 9,
        live_in := some 0 })],
    active_intervals := [.loc 0], tree_regs := [], tree_spills := [],
    tree_restores := [], st_extra_operands := [], block_active_in := [],
    block_active_out := [], edge_spills := [], edge_moves := [],
    edge_restores := [], allow_operand_reuse := true,
    current_block := 0, current_tree := 2 }

/-- C5 counterexample: spilling the variable interval for local 0
appends the SpillRec to the current tree but appends no RestoreRec
anywhere — in particular not the placeholder RestoreRec(-1) at the
victim's next-use tree 5 that the claim requires for variable-kind
victims. -/
theorem C5_counterexample :
    ((spill_interval c5_var_state (.loc 0)).map (fun p =>
        (treeSpills p.1 2, p.1.tree_restores)))
      = .ok ([{ reg := 0, interval := .loc 0 }], []) ∧
    ((spill_interval c5_var_state (.loc 0)).map (fun p => treeRestores p.1 5))
      ≠ .ok [{ reg := -1, interval := .loc 0 }] := by
  refine ⟨rfl, ?_⟩
  intro h
  rw [show ((spill_interval c5_var_state (.loc 0)).map (fun p => treeRestores p.1 5))
      = .ok [] from rfl] at h
  simp at h

/-- C5 amended: spill_interval appends SpillRec(victim.reg, victim) to
the current tree; when the victim is a tree-temp interval a placeholder
RestoreRec(-1, victim) is appended to the victim's next-use tree (and
no other tree's restores change); when the victim is a variable
interval no restore record is pre-inserted anywhere. -/
theorem C5_amended (st : LsraState) (id : IvId) (iv : Interval) (r : Int) (j : Nat)
    (hiv : alookup st.intervals id = some iv)
    (hlive : iv.live_in = some r)
    (hmem : id ∈ st.active_intervals)
    (hreg : pyIndex st.registers.length r = Except.ok j)
    (huse : ∀ t, id = IvId.tmp t → (iv.first_use_pos st.current_tree).isSome = true) :
    ∃ st2, spill_interval st id = .ok (st2, r) ∧
      treeSpills st2 st.current_tree
        = treeSpills st st.current_tree ++ [{ reg := r, interval := id }] ∧
      (∀ l, id = IvId.loc l → st2.tree_restores = st.tree_restores) ∧
      (∀ t, id = IvId.tmp t → ∃ u, iv.first_use_pos st.current_tree = some u ∧
        treeRestores st2 u.used_in
          = treeRestores st u.used_in ++ [{ reg := -1, interval := id }] ∧
        ∀ i, i ≠ u.used_in → treeRestores st2 i = treeRestores st i) := by
  cases id with
  | loc l =>
    unfold spill_interval
    simp only [getIv, hiv, req_some, exc_bind_ok, hlive, appendTreeSpill, setIv,
      removeActive, setRegister]
    simp [hmem, hreg, exc_bind_ok, exc_pure, treeSpills, treeRestores, alookup_aupsert]
  | tmp t =>
    have hu := huse t rfl
    cases hu2 : iv.first_use_pos st.current_tree with
    | none => rw [hu2] at hu; simp at hu
    | some u =>
      unfold spill_interval
      simp only [getIv, hiv, req_some, exc_bind_ok, hlive, appendTreeSpill, setIv,
        removeActive, setRegister]
      simp only [hu2, req_some, exc_bind_ok, appendTreeRestore]
      simp [hmem, hreg, exc_bind_ok, exc_pure, treeSpills, treeRestores,
        alookup_aupsert]
      intro i hi
      rw [alookup_aupsert_ne _ _ _ _ hi]

/-- Allocator state at tree 2 with an active tree-temp interval for the
tree at ir_idx 1 (next use in tree 5) occupying register 0. -/
def c5_tmp_state : LsraState :=
  { registers := [some (.tmp 1)],
    intervals := [(.tmp 1,
      { of := .tmp 1,
        use_positions := [{ used_in := 5, on_block_boundary := false }],
        write_positions := [{ used_in := 1, on_block_boundary := false }],
        first_write_at := 1, last_read_at := 5, live_in := some 0 })],
    active_intervals := [.tmp 1], tree_regs := [], tree_spills := [],
    tree_restores := [], st_extra_operands := [], block_active_in := [],
    block_active_out := [], edge_spills := [], edge_moves := [],
    edge_restores := [], allow_operand_reuse := true,
    current_block := 0, current_tree := 2 }

/-- The tree-temp interval of c5_tmp_state. -/
def c5_tmp_interval : Interval :=
  { of := .tmp 1,
    use_positions := [{ used_in := 5, on_block_boundary := false }],
    write_positions := [{ used_in := 1, on_block_boundary := false }],
    first_write_at := 1, last_read_at := 5, live_in := some 0 }

/-- Witness for C5_amended: spilling the active tree-temp interval of
c5_tmp_state records the spill on tree 2 and the placeholder
RestoreRec(-1) on its use tree 5. -/
theorem C5_amended_witness :
    ∃ st2, spill_interval c5_tmp_state (.tmp 1) = .ok (st2, 0) ∧
      treeSpills st2 2 = [{ reg := 0, interval := .tmp 1 }] ∧
      treeRestores st2 5 = [{ reg := -1, interval := .tmp 1 }] := by
  obtain ⟨st2, h1, h2, _, h4⟩ :=
    C5_amended c5_tmp_state (.tmp 1) c5_tmp_interval 0 0 rfl rfl
      (by decide) rfl (fun t ht => rfl)
  obtain ⟨u, hu, h5, _⟩ := h4 1 rfl
  rw [show c5_tmp_interval.first_use_pos c5_tmp_state.current_tree
      = some { used_in := 5, on_block_boundary := false } from rfl] at hu
  injection hu with hu
  refine ⟨st2, h1, ?_, ?_⟩
  · have := h2
    rw [show treeSpills c5_tmp_state c5_tmp_state.current_tree = [] from rfl] at this
    simpa using this
  · have := h5
    rw [← hu] at this
    rw [show treeRestores c5_tmp_state (5 : Nat) = [] from rfl] at this
    simpa using this

/-! Claim C6: the UsePos recorded by Phase A for an LdLocal tree. -/

/-- A four-tree Ir (LdLocal, LdLocal, BinOp, Ret) for the C6 scenario. -/
def c6_ir : FlatIr :=
  { blocks := [{ il_idx := 0, stmts := [(0, 3)], tree_idxs := [0, 1, 2, 3],
                 predecessors := [] }],
    local_vars := 1, ir_idx_count := 4,
    trees :=
      [{ kind := .ldLocal, operands := [.num 0], subtrees := [], parent := some 2,
         ir_idx := 0, block_il := 0 },
       { kind := .ldLocal, operands := [.num 0], subtrees := [], parent := some 2,
         ir_idx := 1, block_il := 0 },
       { kind := .binOp, operands := [.op .add], subtrees := [0, 1], parent := some 3,
         ir_idx := 2, block_il := 0 },
       { kind := .ret, operands := [], subtrees := [2], parent := none,
         ir_idx := 3, block_il := 0 }] }

/-- The LdLocal tree at ir_idx 0 of c6_ir (parent at ir_idx 2). -/
def c6_tree : FlatTree :=
  { kind := .ldLocal, operands := [.num 0], subtrees := [], parent := some 2,
    ir_idx := 0, block_il := 0 }

/-- The initial Phase A state for c6_ir. -/
def c6_state : LsraState :=
  { registers := [none, none],
    intervals := initVarIntervals c6_ir,
    active_intervals := [], tree_regs := [], tree_spills := [],
    tree_restores := [], st_extra_operands := [], block_active_in := [],
    block_active_out := [], edge_spills := [], edge_moves := [],
    edge_restores := [], allow_operand_reuse := true,
    current_block := 0, current_tree := 0 }

/-- C6 counterexample: discovering the LdLocal tree at ir_idx 0 (whose
parent is the BinOp at ir_idx 2) raises the interval's last_read_at to
the parent's index 2 but appends a UsePos whose tree is the LdLocal
itself (position 0), not a UsePos positioned at the parent's ir_idx 2
as the claim states. -/
theorem C6_counterexample :
    ((discoverTree c6_ir c6_state c6_tree).map (fun st =>
        (alookup st.intervals (.loc 0)).map
          (fun iv => (iv.use_positions, iv.last_read_at))))
      = .ok (some ([{ used_in := 0, on_block_boundary := false }], 2)) ∧
    ((discoverTree c6_ir c6_state c6_tree).map (fun st =>
        (alookup st.intervals (.loc 0)).map (·.use_positions)))
      ≠ .ok (some [{ used_in := 2, on_block_boundary := false }]) := by
  refine ⟨rfl, ?_⟩
  intro h
  rw [show ((discoverTree c6_ir c6_state c6_tree).map (fun st =>
        (alookup st.intervals (.loc 0)).map (·.use_positions)))
      = .ok (some [{ used_in := 0, on_block_boundary := false }]) from rfl] at h
  simp at h

/-- C6 amended: during Phase A discovery, an LdLocal tree for local l
with parent p appends to l's variable interval a UsePos referencing the
LdLocal tree itself (its own ir_idx), and raises the interval's
last_read_at to the parent's ir_idx when that is larger (max of the
two). -/
theorem C6_amended (ir : FlatIr) (st : LsraState) (t : FlatTree) (l p : Nat)
    (iv : Interval)
    (hk : t.kind = .ldLocal)
    (hop : localOperand ir t = .ok l)
    (hp : t.parent = some p)
    (hiv : alookup st.intervals (.loc l) = some iv) :
    discoverTree ir st t = .ok (setIv st (.loc l)
      { iv with last_read_at := max iv.last_read_at (p : Int),
                use_positions := iv.use_positions ++
                  [{ used_in := t.ir_idx, on_block_boundary := false }] }) := by
  have hmax : (if (p : Int) > iv.last_read_at then (p : Int) else iv.last_read_at)
      = max iv.last_read_at (p : Int) := by
    rcases le_or_lt (p : Int) iv.last_read_at with hle | hlt
    · rw [if_neg (not_lt.mpr hle), max_eq_left hle]
    · rw [if_pos hlt, max_eq_right (le_of_lt hlt)]
  unfold discoverTree
  rw [hk]
  simp only [getIv, hiv, req_some, exc_bind_ok, hop, hp, exc_pure]
  rw [← hmax]
  by_cases hc : (p : Int) > iv.last_read_at
  · simp [hc]
  · simp [hc]

/-! Claim C10: recompute_predecessors appends and never clears. -/

/-- The part of a block recompute_predecessors never changes: il_idx,
statements and tree indices. -/
def blockSkel (b : FlatBlock) : Nat × List (Nat × Nat) × List Nat :=
  (b.il_idx, b.stmts, b.tree_idxs)

/-- The outgoing-edge targets of the block at the given il_idx (empty
when the block is missing or its terminator is malformed). -/
def targetsOf (ir : FlatIr) (srcIl : Nat) : List Nat :=
  match ir.blocks.find? (fun b => b.il_idx == srcIl) with
  | some b =>
    match outgoing_edges ir b with
    | .ok ts => ts
    | .error _ => []
  | none => []

/-- The predecessor entries appended to block il by processing the
given source blocks in order: one entry per edge targeting il. -/
def appendedBy (ir : FlatIr) : List Nat → Nat → List Nat
  | [], _ => []
  | srcIl :: rest, il =>
    ((targetsOf ir srcIl).filter (fun t => t == il)).map (fun _ => srcIl)
      ++ appendedBy ir rest il

/-- The incoming-edge entries of block il over the whole Ir, in the
order one pass of recompute_predecessors appends them. -/
def incomingEdges (ir : FlatIr) (il : Nat) : List Nat :=
  appendedBy ir (ir.blocks.map (·.il_idx)) il

/-- The predecessor list of the block with the given il_idx. -/
def predsOf (blocks : List FlatBlock) (il : Nat) : List Nat :=
  ((blocks.find? (fun b => b.il_idx == il)).map (·.predecessors)).getD []

/-- All conditions one pass of recompute_predecessors needs in order to
succeed: each processed block is found, its outgoing edges are all
BlockEdges, and every target exists. -/
def stepsOkFor (ir : FlatIr) (ils : List Nat) : Prop :=
  ∀ srcIl ∈ ils, ∃ b, ir.blocks.find? (fun bb => bb.il_idx == srcIl) = some b ∧
    ∃ ts, outgoing_edges ir b = .ok ts ∧
    ∀ t ∈ ts, ir.blocks.any (fun bb => bb.il_idx == t) = true

theorem outgoing_edges_blocks_irrel (ir : FlatIr) (B : List FlatBlock)
    (b : FlatBlock) : outgoing_edges { ir with blocks := B } b = outgoing_edges ir b := rfl

theorem outgoing_edges_skel (ir : FlatIr) (b c : FlatBlock)
    (h : blockSkel b = blockSkel c) : outgoing_edges ir b = outgoing_edges ir c := by
  have hs : b.stmts = c.stmts := congrArg (fun p => p.2.1) h
  unfold outgoing_edges
  rw [hs]

theorem find_map_skel : ∀ (B C : List FlatBlock),
    B.map blockSkel = C.map blockSkel → ∀ il,
    (B.find? (fun b => b.il_idx == il)).map blockSkel
      = (C.find? (fun b => b.il_idx == il)).map blockSkel := by
  intro B
  induction B with
  | nil =>
    intro C h il
    cases C with
    | nil => rfl
    | cons c C => simp at h
  | cons b B ih =>
    intro C h il
    cases C with
    | nil => simp at h
    | cons c C =>
      simp only [List.map_cons, List.cons.injEq] at h
      obtain ⟨h1, h2⟩ := h
      have hil : b.il_idx = c.il_idx := congrArg (fun p => p.1) h1
      by_cases hb : b.il_idx == il
      · have hc : c.il_idx == il := by rw [← hil]; exact hb
        simp [List.find?_cons, hb, hc, h1]
      · have hc : (c.il_idx == il) = false := by
          rw [← hil]; exact Bool.not_eq_true _ ▸ (by simpa using hb)
        simp only [List.find?_cons]
        rw [show (b.il_idx == il) = false from by simpa using hb, hc]
        exact ih C h2 il

theorem any_map_skel : ∀ (B C : List FlatBlock),
    B.map blockSkel = C.map blockSkel → ∀ t,
    B.any (fun b => b.il_idx == t) = C.any (fun b => b.il_idx == t) := by
  intro B
  induction B with
  | nil =>
    intro C h t
    cases C with
    | nil => rfl
    | cons c C => simp at h
  | cons b B ih =>
    intro C h t
    cases C with
    | nil => simp at h
    | cons c C =>
      simp only [List.map_cons, List.cons.injEq] at h
      obtain ⟨h1, h2⟩ := h
      have hil : b.il_idx = c.il_idx := congrArg (fun p => p.1) h1
      simp only [List.any_cons]
      rw [hil, ih C h2 t]

theorem ils_map_skel (B C : List FlatBlock)
    (h : B.map blockSkel = C.map blockSkel) :
    B.map (·.il_idx) = C.map (·.il_idx) := by
  have := congrArg (List.map (fun p : Nat × List (Nat × Nat) × List Nat => p.1)) h
  simpa [List.map_map, Function.comp] using this

theorem addPredecessor_ok (blocks : List FlatBlock) (t s : Nat)
    (B2 : List FlatBlock) (h : addPredecessor blocks t s = .ok B2) :
    B2 = blocks.map (fun b => if b.il_idx == t then
        { b with predecessors := b.predecessors ++ [s] } else b) ∧
    blocks.any (fun b => b.il_idx == t) = true := by
  unfold addPredecessor at h
  by_cases ha : blocks.any (fun b => b.il_idx == t) = true
  · rw [if_pos ha] at h
    refine ⟨?_, ha⟩
    injection h with h
    exact h.symm
  · rw [if_neg ha] at h
    cases h

theorem addPred_map_skel (blocks : List FlatBlock) (t s : Nat) :
    (blocks.map (fun b => if b.il_idx == t then
        { b with predecessors := b.predecessors ++ [s] } else b)).map blockSkel
      = blocks.map blockSkel := by
  induction blocks with
  | nil => rfl
  | cons b B ih =>
    simp only [List.map_cons, ih]
    by_cases hb : b.il_idx == t
    · simp [hb, blockSkel]
    · simp [hb]

theorem predsOf_cons_of_pos (b : FlatBlock) (l : List FlatBlock) (t : Nat)
    (h : (b.il_idx == t) = true) : predsOf (b :: l) t = b.predecessors := by
  unfold predsOf
  rw [@List.find?_cons_of_pos FlatBlock (fun bb => bb.il_idx == t) b l h]
  rfl

theorem predsOf_cons_of_neg (b : FlatBlock) (l : List FlatBlock) (t : Nat)
    (h : ¬ (b.il_idx == t) = true) : predsOf (b :: l) t = predsOf l t := by
  unfold predsOf
  rw [@List.find?_cons_of_neg FlatBlock (fun bb => bb.il_idx == t) b l h]

theorem predsOf_addPred_eq (blocks : List FlatBlock) (t s : Nat)
    (ha : blocks.any (fun b => b.il_idx == t) = true) :
    predsOf (blocks.map (fun b => if b.il_idx == t then
        { b with predecessors := b.predecessors ++ [s] } else b)) t
      = predsOf blocks t ++ [s] := by
  induction blocks with
  | nil => simp at ha
  | cons b B ih =>
    simp only [List.map_cons]
    by_cases hb : (b.il_idx == t) = true
    · rw [if_pos hb]
      rw [predsOf_cons_of_pos _ _ _ (show ((({ b with predecessors := b.predecessors ++ [s] }
            : FlatBlock)).il_idx == t) = true from hb)]
      rw [predsOf_cons_of_pos _ _ _ hb]
    · have ha2 : B.any (fun b => b.il_idx == t) = true := by
        simp only [List.any_cons] at ha
        rcases Bool.or_eq_true_iff.mp ha with h1 | h1
        · exact absurd h1 hb
        · exact h1
      rw [if_neg hb]
      rw [predsOf_cons_of_neg _ _ _ hb, predsOf_cons_of_neg _ _ _ hb]
      exact ih ha2

theorem predsOf_addPred_ne (blocks : List FlatBlock) (t s il : Nat)
    (hne : il ≠ t) :
    predsOf (blocks.map (fun b => if b.il_idx == t then
        { b with predecessors := b.predecessors ++ [s] } else b)) il
      = predsOf blocks il := by
  induction blocks with
  | nil => rfl
  | cons b B ih =>
    simp only [List.map_cons]
    by_cases hb : (b.il_idx == t) = true
    · have hbil : ¬ (b.il_idx == il) = true := by
        have hbt : b.il_idx = t := by simpa using hb
        simp [hbt, Ne.symm hne]
      rw [if_pos hb]
      rw [predsOf_cons_of_neg _ _ _ (show ¬ ((({ b with predecessors := b.predecessors ++ [s] }
            : FlatBlock)).il_idx == il) = true from hbil)]
      rw [predsOf_cons_of_neg _ _ _ hbil]
      exact ih
    · rw [if_neg hb]
      by_cases hbil : (b.il_idx == il) = true
      · rw [predsOf_cons_of_pos _ _ _ hbil, predsOf_cons_of_pos _ _ _ hbil]
      · rw [predsOf_cons_of_neg _ _ _ hbil, predsOf_cons_of_neg _ _ _ hbil]
        exact ih

theorem addPreds_fold (s : Nat) : ∀ (ts : List Nat) (B B2 : List FlatBlock),
    ts.foldlM (fun blocks t => addPredecessor blocks t s) B = .ok B2 →
    B2.map blockSkel = B.map blockSkel ∧
    (∀ il, predsOf B2 il = predsOf B il
        ++ (ts.filter (fun t => t == il)).map (fun _ => s)) ∧
    (∀ t ∈ ts, B.any (fun b => b.il_idx == t) = true) := by
  intro ts
  induction ts with
  | nil =>
    intro B B2 h
    simp only [List.foldlM_nil] at h
    rw [exc_pure] at h
    injection h with h
    subst h
    exact ⟨rfl, fun il => by simp, fun t ht => absurd ht (List.not_mem_nil t)⟩
  | cons t ts ih =>
    intro B B2 h
    rw [List.foldlM_cons] at h
    cases hadd : addPredecessor B t s with
    | error e =>
      rw [hadd, exc_bind_error] at h
      cases h
    | ok B1 =>
      rw [hadd, exc_bind_ok] at h
      obtain ⟨hB1, hany⟩ := addPredecessor_ok B t s B1 hadd
      obtain ⟨hskel, hpred, hpres⟩ := ih B1 B2 h
      subst hB1
      refine ⟨?_, ?_, ?_⟩
      · rw [hskel, addPred_map_skel]
      · intro il
        rw [hpred il]
        by_cases hil : (t == il) = true
        · have hteq : t = il := by simpa using hil
          subst hteq
          rw [predsOf_addPred_eq B t s hany]
          simp [List.filter_cons, List.append_assoc]
        · rw [predsOf_addPred_ne B t s il (fun hh => hil (by simp [hh]))]
          simp [List.filter_cons, hil]
      · intro t2 ht2
        rcases List.mem_cons.mp ht2 with heq | h2
        · subst heq; exact hany
        · have hh := hpres t2 h2
          rw [any_map_skel _ B (addPred_map_skel B t s) t2] at hh
          exact hh

theorem addPreds_fold_ok (s : Nat) : ∀ (ts : List Nat) (B : List FlatBlock),
    (∀ t ∈ ts, B.any (fun b => b.il_idx == t) = true) →
    ∃ B2, ts.foldlM (fun blocks t => addPredecessor blocks t s) B = .ok B2 := by
  intro ts
  induction ts with
  | nil => intro B _; exact ⟨B, rfl⟩
  | cons t ts ih =>
    intro B hp
    have h1 := hp t (by simp)
    have hok : addPredecessor B t s = .ok (B.map (fun b => if b.il_idx == t then
        { b with predecessors := b.predecessors ++ [s] } else b)) := by
      unfold addPredecessor
      rw [if_pos h1]
    have hp2 : ∀ t2 ∈ ts, (B.map (fun b => if b.il_idx == t then
        { b with predecessors := b.predecessors ++ [s] } else b)).any
          (fun b => b.il_idx == t2) = true := by
      intro t2 h2
      rw [any_map_skel _ B (addPred_map_skel B t s) t2]
      exact hp t2 (List.mem_cons_of_mem _ h2)
    obtain ⟨B2, h2⟩ := ih _ hp2
    refine ⟨B2, ?_⟩
    rw [List.foldlM_cons, hok, exc_bind_ok]
    exact h2

theorem recomputeStep_blocks_irrel (ir : FlatIr) (B : List FlatBlock) :
    recomputeStep { ir with blocks := B } = recomputeStep ir := rfl

theorem recompute_fold (ir : FlatIr) : ∀ (ils : List Nat) (B B2 : List FlatBlock),
    B.map blockSkel = ir.blocks.map blockSkel →
    ils.foldlM (recomputeStep ir) B = .ok B2 →
    B2.map blockSkel = ir.blocks.map blockSkel ∧
    (∀ il, predsOf B2 il = predsOf B il ++ appendedBy ir ils il) ∧
    stepsOkFor ir ils := by
  intro ils
  induction ils with
  | nil =>
    intro B B2 hskel h
    simp only [List.foldlM_nil] at h
    rw [exc_pure] at h
    injection h with h
    subst h
    exact ⟨hskel, fun il => by simp [appendedBy], fun s hs => absurd hs (List.not_mem_nil s)⟩
  | cons srcIl ils ih =>
    intro B B2 hskel h
    rw [List.foldlM_cons] at h
    cases hfind : B.find? (fun bb => bb.il_idx == srcIl) with
    | none =>
      rw [show recomputeStep ir B srcIl = .error "dangling block" from by
        unfold recomputeStep
        rw [hfind]
        rfl, exc_bind_error] at h
      cases h
    | some b =>
      have hcorr := find_map_skel B ir.blocks hskel srcIl
      rw [hfind] at hcorr
      cases hfind2 : ir.blocks.find? (fun bb => bb.il_idx == srcIl) with
      | none => rw [hfind2] at hcorr; simp at hcorr
      | some c =>
        rw [hfind2] at hcorr
        simp only [Option.map_some', Option.some.injEq] at hcorr
        have hout : outgoing_edges ir b = outgoing_edges ir c :=
          outgoing_edges_skel ir b c hcorr
        cases hedges : outgoing_edges ir b with
        | error e =>
          rw [show recomputeStep ir B srcIl = .error e from by
            unfold recomputeStep
            rw [hfind, req_some, exc_bind_ok, outgoing_edges_blocks_irrel, hedges]
            rfl, exc_bind_error] at h
          cases h
        | ok ts =>
          rw [show recomputeStep ir B srcIl
              = ts.foldlM (fun blocks t => addPredecessor blocks t srcIl) B from by
            unfold recomputeStep
            rw [hfind, req_some, exc_bind_ok, outgoing_edges_blocks_irrel, hedges,
              exc_bind_ok]] at h
          cases hinner : ts.foldlM (fun blocks t => addPredecessor blocks t srcIl) B with
          | error e => rw [hinner, exc_bind_error] at h; cases h
          | ok B1 =>
            rw [hinner, exc_bind_ok] at h
            obtain ⟨hskel1, hpred1, hpres1⟩ := addPreds_fold srcIl ts B B1 hinner
            have hskelB1 : B1.map blockSkel = ir.blocks.map blockSkel := by
              rw [hskel1, hskel]
            obtain ⟨hskel2, hpred2, hsteps2⟩ := ih B1 B2 hskelB1 h
            have htargets : targetsOf ir srcIl = ts := by
              unfold targetsOf
              rw [hfind2]
              dsimp only
              rw [← hout, hedges]
            refine ⟨hskel2, ?_, ?_⟩
            · intro il
              rw [hpred2 il, hpred1 il]
              show _ = predsOf B il ++
                (((targetsOf ir srcIl).filter (fun t => t == il)).map (fun _ => srcIl)
                  ++ appendedBy ir ils il)
              rw [htargets, List.append_assoc]
            · intro s2 hs2
              rcases List.mem_cons.mp hs2 with heq | h2
              · subst heq
                refine ⟨c, hfind2, ts, by rw [← hout]; exact hedges, ?_⟩
                intro t ht
                rw [← any_map_skel B ir.blocks hskel t]
                exact hpres1 t ht
              · exact hsteps2 s2 h2

theorem recompute_fold_ok (ir : FlatIr) : ∀ (ils : List Nat) (B : List FlatBlock),
    B.map blockSkel = ir.blocks.map blockSkel →
    stepsOkFor ir ils →
    ∃ B2, ils.foldlM (recomputeStep ir) B = .ok B2 := by
  intro ils
  induction ils with
  | nil => intro B _ _; exact ⟨B, rfl⟩
  | cons srcIl ils ih =>
    intro B hskel hsteps
    obtain ⟨c, hfind2, ts, hout, hpres⟩ := hsteps srcIl (by simp)
    have hcorr := find_map_skel B ir.blocks hskel srcIl
    rw [hfind2] at hcorr
    cases hfind : B.find? (fun bb => bb.il_idx == srcIl) with
    | none => rw [hfind] at hcorr; simp at hcorr
    | some b =>
      rw [hfind] at hcorr
      simp only [Option.map_some', Option.some.injEq] at hcorr
      have houtb : outgoing_edges ir b = .ok ts := by
        rw [outgoing_edges_skel ir b c hcorr]
        exact hout
      have hpresB : ∀ t ∈ ts, B.any (fun bb => bb.il_idx == t) = true := by
        intro t ht
        rw [any_map_skel B ir.blocks hskel t]
        exact hpres t ht
      obtain ⟨B1, hinner⟩ := addPreds_fold_ok srcIl ts B hpresB
      obtain ⟨hskel1, _, _⟩ := addPreds_fold srcIl ts B B1 hinner
      obtain ⟨B2, h2⟩ := ih B1 (by rw [hskel1, hskel])
        (fun s hs => hsteps s (List.mem_cons_of_mem _ hs))
      refine ⟨B2, ?_⟩
      rw [List.foldlM_cons]
      rw [show recomputeStep ir B srcIl
          = ts.foldlM (fun blocks t => addPredecessor blocks t srcIl) B from by
        unfold recomputeStep
        rw [hfind, req_some, exc_bind_ok, outgoing_edges_blocks_irrel, houtb,
          exc_bind_ok]]
      rw [hinner, exc_bind_ok]
      exact h2

/-- C10: recompute_predecessors never clears existing predecessor
lists — one successful call appends, for every block, exactly one entry
per incoming edge (the incomingEdges list) after whatever was already
there; running it a second time on the result succeeds and appends the
same entries again, so starting from empty predecessor lists every
entry ends up duplicated.  The pass is not idempotent. -/
theorem C10_recompute_not_idempotent (ir ir1 : FlatIr)
    (h : recompute_predecessors ir = .ok ir1) :
    (∀ il, predsOf ir1.blocks il = predsOf ir.blocks il ++ incomingEdges ir il) ∧
    ∃ ir2, recompute_predecessors ir1 = .ok ir2 ∧
      (∀ il, predsOf ir2.blocks il = predsOf ir.blocks il
          ++ incomingEdges ir il ++ incomingEdges ir il) ∧
      ∀ il, predsOf ir.blocks il = [] →
        predsOf ir2.blocks il = incomingEdges ir il ++ incomingEdges ir il := by
  unfold recompute_predecessors at h
  replace h : (List.foldlM (recomputeStep ir) ir.blocks (ir.blocks.map (fun x => x.il_idx)))
      >>= (fun blocks => pure { ir with blocks := blocks }) = Except.ok ir1 := h
  cases hrun : List.foldlM (recomputeStep ir) ir.blocks (ir.blocks.map (fun x => x.il_idx)) with
  | error e => rw [hrun, exc_bind_error] at h; cases h
  | ok B2 =>
    rw [hrun, exc_bind_ok, exc_pure] at h
    injection h with h
    subst h
    obtain ⟨hskel, hpred, hsteps⟩ :=
      recompute_fold ir (ir.blocks.map (·.il_idx)) ir.blocks B2 rfl hrun
    constructor
    · intro il
      exact hpred il
    · have hils : (({ ir with blocks := B2 } : FlatIr).blocks.map (·.il_idx))
          = ir.blocks.map (·.il_idx) := ils_map_skel B2 ir.blocks hskel
      obtain ⟨B3, hrun2⟩ :=
        recompute_fold_ok ir (ir.blocks.map (·.il_idx)) B2 hskel hsteps
      obtain ⟨_, hpred3, _⟩ :=
        recompute_fold ir (ir.blocks.map (·.il_idx)) B2 B3 hskel hrun2
      refine ⟨{ ir with blocks := B3 }, ?_, ?_, ?_⟩
      · unfold recompute_predecessors
        show ((({ ir with blocks := B2 } : FlatIr).blocks.map (·.il_idx)).foldlM
            (recomputeStep { ir with blocks := B2 })
            ({ ir with blocks := B2 } : FlatIr).blocks) >>=
          (fun blocks => pure { ({ ir with blocks := B2 } : FlatIr) with blocks := blocks })
            = Except.ok { ir with blocks := B3 }
        rw [hils, recomputeStep_blocks_irrel]
        show ((ir.blocks.map (·.il_idx)).foldlM (recomputeStep ir) B2) >>=
          (fun blocks => pure { ir with blocks := blocks })
            = Except.ok { ir with blocks := B3 }
        rw [hrun2, exc_bind_ok]
        rfl
      · intro il
        show predsOf B3 il = _
        rw [hpred3 il, hpred il]
        rfl
      · intro il hil
        show predsOf B3 il = _
        rw [hpred3 il, hpred il]
        rw [show predsOf ir.blocks il = [] from hil]
        rfl

/-- A two-block Ir with one well-formed edge (a synthesized-style Jmp
carrying a BlockEdge) from block 0 to block 1. -/
def c10_ir : FlatIr :=
  { blocks :=
      [{ il_idx := 0, stmts := [(0, 0)], tree_idxs := [0], predecessors := [] },
       { il_idx := 1, stmts := [(1, 2)], tree_idxs := [1, 2], predecessors := [] }],
    local_vars := 0, ir_idx_count := 3,
    trees :=
      [{ kind := .jmp, operands := [.edge 1], subtrees := [], parent := none,
         ir_idx := 0, block_il := 0 },
       { kind := .const, operands := [.num 7], subtrees := [], parent := some 2,
         ir_idx := 1, block_il := 1 },
       { kind := .ret, operands := [], subtrees := [1], parent := none,
         ir_idx := 2, block_il := 1 }] }

/-- Witness for C10 at c10_ir: the first pass gives block 1 the
predecessor list [0]; the second pass succeeds and leaves [0, 0]. -/
theorem C10_witness :
    ∃ ir2, (recompute_predecessors c10_ir).bind recompute_predecessors = .ok ir2 ∧
      predsOf ir2.blocks 1 = [0, 0] := by
  have h1 : ∃ ir1, recompute_predecessors c10_ir = .ok ir1 := ⟨_, rfl⟩
  obtain ⟨ir1, hir1⟩ := h1
  obtain ⟨hp1, ir2, hir2, hp2, hdup⟩ := C10_recompute_not_idempotent c10_ir ir1 hir1
  refine ⟨ir2, ?_, ?_⟩
  · rw [hir1]
    exact hir2
  · rw [hdup 1 rfl]
    rfl

/-- Ordering on next-use keys for the amended claim C8: an interval
with no next use at all counts as furthest in the future (greater than
every finite next use, never greater than another missing one). -/
def keyGtKey : Option Nat → Option Nat → Bool
  | none, none => false
  | none, some _ => true
  | some _, none => false
  | some a, some b => b < a

/-- First-seen argmax over (interval, next-use key) pairs: a later
candidate replaces the current best only when its key is strictly
greater. -/
def victimSpecFold : List (IvId × Option Nat) → Option (IvId × Option Nat) → Option IvId
  | [], best => best.map (·.1)
  | (id, k) :: rest, best =>
    match best with
    | none => victimSpecFold rest (some (id, k))
    | some (bid, bk) =>
      if keyGtKey k bk then victimSpecFold rest (some (id, k))
      else victimSpecFold rest (some (bid, bk))

/-- The next-use key of an interval: the tree index of its first use at
or after the position, none when it has no further use. -/
def nextUseKey (st : LsraState) (pos : Nat) (id : IvId) : Option Nat :=
  (alookup st.intervals id).bind (fun iv => (iv.first_use_pos pos).map (·.used_in))

/-- The spill-victim choice as the amended claim C8 states it: among
the candidates whose next use is strictly after the activating
interval's next use — an interval with no next use counting as furthest
— pick the one with the greatest key, first seen winning ties. -/
def victimSpec (st : LsraState) (pos interUse : Nat) (ids : List IvId) : Option IvId :=
  victimSpecFold
    ((ids.map (fun id => (id, nextUseKey st pos id))).filter
      (fun p => keyGtKey p.2 (some interUse))) none

theorem victimSpecFold_top (x : IvId) :
    ∀ (l : List (IvId × Option Nat)), victimSpecFold l (some (x, none)) = some x := by
  intro l
  induction l with
  | nil => rfl
  | cons p rest ih =>
    obtain ⟨id, k⟩ := p
    have hk : keyGtKey k none = false := by cases k <;> rfl
    simp [victimSpecFold, hk, ih]

theorem findSpillCandidate_eq_spec (st : LsraState) (pos interUse : Nat) :
    ∀ (ids : List IvId) (best : Option (IvId × Nat)),
    (∀ id ∈ ids, (alookup st.intervals id).isSome = true) →
    findSpillCandidate st pos interUse ids best
      = .ok (victimSpecFold
          ((ids.map (fun id => (id, nextUseKey st pos id))).filter
            (fun p => keyGtKey p.2 (some interUse)))
          (best.map (fun b => (b.1, some b.2)))) := by
  intro ids
  induction ids with
  | nil =>
    intro best _
    cases best with
    | none => rfl
    | some b => rfl
  | cons id rest ih =>
    intro best hall
    have hid := hall id (by simp)
    have hrest : ∀ i ∈ rest, (alookup st.intervals i).isSome = true :=
      fun i hi => hall i (by simp [hi])
    cases hiv : alookup st.intervals id with
    | none => rw [hiv] at hid; simp at hid
    | some iv =>
      simp only [findSpillCandidate, getIv, hiv, req_some, exc_bind_ok]
      simp only [List.map_cons, List.filter_cons]
      have hkey : nextUseKey st pos id = (iv.first_use_pos pos).map (·.used_in) := by
        simp [nextUseKey, hiv]
      cases hu : iv.first_use_pos pos with
      | none =>
        rw [hkey, hu]
        simp only [Option.map_none', keyGtKey]
        cases best with
        | none => simp [victimSpecFold, victimSpecFold_top]
        | some b => simp [victimSpecFold, keyGtKey, victimSpecFold_top]
      | some u =>
        rw [hkey, hu]
        simp only [Option.map_some']
        by_cases hle : u.used_in ≤ interUse
        · have hksimp : keyGtKey (some u.used_in) (some interUse) = false := by
            simp [keyGtKey]; omega
          rw [if_pos hle, hksimp]
          simp only [Bool.false_eq_true, if_false]
          exact ih best hrest
        · have hgt : keyGtKey (some u.used_in) (some interUse) = true := by
            simp [keyGtKey]; omega
          rw [if_neg hle, hgt]
          simp only [if_true]
          cases best with
          | none =>
            dsimp only
            rw [ih (some (id, u.used_in)) hrest]
            rfl
          | some b =>
            obtain ⟨bid, bu⟩ := b
            dsimp only
            by_cases hb : u.used_in > bu
            · have hk2 : keyGtKey (some u.used_in) (some bu) = true := by
                simp [keyGtKey]; omega
              rw [if_pos hb, ih (some (id, u.used_in)) hrest]
              simp [victimSpecFold, hk2]
            · have hk2 : keyGtKey (some u.used_in) (some bu) = false := by
                simp [keyGtKey]; omega
              rw [if_neg hb, ih (some (bid, bu)) hrest]
              simp [victimSpecFold, hk2]

theorem tryActivateScan_occupied (ir : FlatIr) (st : LsraState) (inter : Interval)
    (h : ∀ slot ∈ st.registers, slot.isSome = true) :
    ∀ (l : List Nat), (∀ i ∈ l, i < st.registers.length) →
    ∀ best, tryActivateScan ir st inter l best = .ok best := by
  intro l
  induction l with
  | nil => intro _ best; rfl
  | cons i rest ih =>
    intro hb best
    have hi : i < st.registers.length := hb i (by simp)
    have hsome : ((st.registers.get? i).getD none).isSome = true := by
      rw [List.get?_eq_getElem?, List.getElem?_eq_getElem hi]
      exact h _ (List.getElem_mem hi)
    show tryActivateScan ir st inter (i :: rest) best = .ok best
    rw [tryActivateScan.eq_def]
    dsimp only
    rw [if_pos hsome]
    exact ih (fun j hj => hb j (by simp [hj])) best

/-- A minimal Ir context for the C8 scenarios. -/
def c8_ir : FlatIr := { blocks := [], local_vars := 2, ir_idx_count := 0, trees := [] }

/-- One occupied register; the active interval for local 1 has no next
use at all; local 0 (to be activated) has its next use in tree 5. -/
def c8_state : LsraState :=
  { registers := [some (.loc 1)],
    intervals := [(.loc 0,
      { of := .loc 0, use_positions := [{ used_in := 5, on_block_boundary := false }],
        write_positions := [], first_write_at := 9, last_read_at := 9,
        live_in := none }),
      (.loc 1,
      { of := .loc 1, use_positions := [], write_positions := [],
        first_write_at := 9, last_read_at := 9, live_in := some 0 })],
    active_intervals := [.loc 1], tree_regs := [], tree_spills := [],
    tree_restores := [], st_extra_operands := [], block_active_in := [],
    block_active_out := [], edge_spills := [], edge_moves := [],
    edge_restores := [], allow_operand_reuse := true,
    current_block := 0, current_tree := 3 }

/-- C8 counterexample: the only active interval has no next use, so by
the claim it is not among "those whose next use is strictly after the
activating interval's next use" and no victim should be eligible — the
claim then demands a fatal exception.  The code instead immediately
selects it: activation succeeds, the no-next-use interval is spilled
onto the current tree and evicted. -/
theorem C8_counterexample :
    ((activate_interval c8_ir c8_state (.loc 0)).map (fun st =>
        (st.registers, treeSpills st 3,
         (alookup st.intervals (.loc 1)).map (·.live_in))))
      = .ok ([some (.loc 0)], [{ reg := 0, interval := .loc 1 }], some none) := rfl

/-- C8 amended: (a) when no register is free, the spill victim chosen
by the loop of activate_interval is the first-seen active interval with
the greatest next-use key among those whose key is strictly greater
than the activating interval's next use, where an interval with no next
use at all counts as furthest in the future (and is selected
immediately); (b) when no active interval is eligible under that
ordering, activate_interval raises the fatal
"No intervals elligible for spilling" exception (after dumping the
register file). -/
theorem C8_amended :
    (∀ (st : LsraState) (pos interUse : Nat),
      (∀ id ∈ st.active_intervals, (alookup st.intervals id).isSome = true) →
      findSpillCandidate st pos interUse st.active_intervals none
        = .ok (victimSpec st pos interUse st.active_intervals)) ∧
    (∀ (ir : FlatIr) (st : LsraState) (id : IvId) (iv : Interval) (u : UsePos),
      alookup st.intervals id = some iv →
      iv.live_in = none →
      (∀ slot ∈ st.registers, slot.isSome = true) →
      (∀ i ∈ st.active_intervals, (alookup st.intervals i).isSome = true) →
      iv.first_use_pos st.current_tree = some u →
      victimSpec st st.current_tree u.used_in st.active_intervals = none →
      activate_interval ir st id = .error "No intervals elligible for spilling") := by
  constructor
  · intro st pos interUse hall
    exact findSpillCandidate_eq_spec st pos interUse st.active_intervals none hall
  · intro ir st id iv u hiv hlive hregs hall hfup hvict
    have htry : try_activate_with_free_reg ir st id = .ok (false, st) := by
      unfold try_activate_with_free_reg
      rw [show getIv st id = .ok iv from by simp [getIv, hiv, req_some]]
      rw [exc_bind_ok]
      rw [tryActivateScan_occupied ir st iv hregs (List.range st.registers.length)
        (fun i hi => List.mem_range.mp hi) none]
      rfl
    unfold activate_interval
    rw [show getIv st id = .ok iv from by simp [getIv, hiv, req_some]]
    rw [exc_bind_ok, hlive]
    simp only [Option.isSome_none, Bool.false_eq_true, if_false]
    rw [htry, exc_bind_ok]
    simp only [Bool.false_eq_true, if_false]
    rw [hfup, req_some, exc_bind_ok]
    rw [findSpillCandidate_eq_spec st st.current_tree u.used_in st.active_intervals
      none hall]
    rw [exc_bind_ok]
    simp only [Option.map_none']
    simp only [victimSpec] at hvict
    rw [hvict]

/-- The starvation instance for C8: the single active interval's next
use (tree 4) is at or before the activating interval's next use
(tree 5), so no victim is eligible. -/
def c8_starv_state : LsraState :=
  { c8_state with intervals := [(.loc 0,
      { of := .loc 0, use_positions := [{ used_in := 5, on_block_boundary := false }],
        write_positions := [], first_write_at := 9, last_read_at := 9,
        live_in := none }),
      (.loc 1,
      { of := .loc 1, use_positions := [{ used_in := 4, on_block_boundary := false }],
        write_positions := [], first_write_at := 9, last_read_at := 9,
        live_in := some 0 })] }

/-- Witness for C8_amended: the selection loop of c8_state picks the
no-next-use interval for local 1, and activation in c8_starv_state
(every active next use at or before tree 5) raises the fatal
exception. -/
theorem C8_amended_witness :
    findSpillCandidate c8_state 3 5 c8_state.active_intervals none
      = .ok (victimSpec c8_state 3 5 c8_state.active_intervals) ∧
    activate_interval c8_ir c8_starv_state (.loc 0)
      = .error "No intervals elligible for spilling" := by
  constructor
  · exact C8_amended.1 c8_state 3 5 (by decide)
  · exact C8_amended.2 c8_ir c8_starv_state (.loc 0)
      { of := .loc 0, use_positions := [{ used_in := 5, on_block_boundary := false }],
        write_positions := [], first_write_at := 9, last_read_at := 9,
        live_in := none }
      { used_in := 5, on_block_boundary := false }
      rfl rfl (by decide) (by decide) rfl rfl

/-- Witness for C6_amended at the concrete c6 scenario: the appended
UsePos sits at the LdLocal's own index 0 and last_read_at becomes 2. -/
theorem C6_amended_witness :
    discoverTree c6_ir c6_state c6_tree = .ok (setIv c6_state (.loc 0)
      { of := .loc 0,
        use_positions := [{ used_in := 0, on_block_boundary := false }],
        write_positions := [], first_write_at := 4, last_read_at := 2,
        live_in := none }) := by
  have h := C6_amended c6_ir c6_state c6_tree 0 2
    { of := .loc 0, use_positions := [], write_positions := [],
      first_write_at := 4, last_read_at := -1, live_in := none }
    rfl rfl rfl rfl
  rw [h]
  rfl

end LSRA
